import Mathlib

/-!
Verification of the DataDepot retrieval-and-routing service.

This file shallowly embeds the pure logic of the repository's Python code:

* `back/ingest_to_qdrant.py` — the `_chunk` windowing generator;
* `back/openai_integration.py` — the `_post_with_retry` backoff loop;
* `back/asana_integration.py` — the TTL cache (`_cache_get`, `_cache_put`,
  `_list_tasks_for_project`);
* `back/server.py` — the `/ask` router, the GA fallback trigger
  (`_maybe_answer_ga`) and the output sanitizer (`_sanitize_answer_format`).

Python strings are modelled as `List Char`; machine-level I/O (HTTP, file
system, the OpenAI and Qdrant services) is modelled by explicit oracle
parameters, exactly at the call boundaries the code itself uses.
-/

/-- Python strings are modelled as lists of characters. -/
abbrev Str := List Char

/-- The characters Python's `str.strip` / `\s` treat as whitespace
(ASCII part: space, tab, newline, carriage return, vertical tab, form feed). -/
def pySpace (c : Char) : Bool :=
  c == ' ' || c == '\t' || c == '\n' || c == '\r' || c == '\x0b' || c == '\x0c'

/-- Python `s.strip()`: drop whitespace from both ends. -/
def pyStrip (s : Str) : Str :=
  ((s.dropWhile pySpace).reverse.dropWhile pySpace).reverse

/-- Python `s.rstrip()`: drop trailing whitespace. -/
def rstripLine (s : Str) : Str :=
  (s.reverse.dropWhile pySpace).reverse

/-- Python `s.lower()` (ASCII model). -/
def pyLower (s : Str) : Str := s.map Char.toLower

/-- `listStarts s pat` : `pat` is a prefix of `s` (Python `s.startswith(pat)`). -/
def listStarts : Str → Str → Bool
  | _, [] => true
  | [], _ :: _ => false
  | c :: s, p :: ps => p == c && listStarts s ps

/-- Python `pat in s` : substring containment. -/
def strContains : Str → Str → Bool
  | [], pat => listStarts [] pat
  | s@(_ :: rest), pat => listStarts s pat || strContains rest pat

/-- Python `sep.join(parts)`. -/
def joinSep (sep : Str) : List Str → Str
  | [] => []
  | [x] => x
  | x :: xs => x ++ sep ++ joinSep sep xs

/-- Worker for `pySplitWs`, with explicit fuel (one unit per extracted word;
`s.length` units always suffice). -/
def pySplitWsF : Nat → Str → List Str
  | 0, _ => []
  | fuel + 1, s =>
    match s.dropWhile pySpace with
    | [] => []
    | c :: rest =>
      (c :: rest.takeWhile (fun x => !pySpace x)) ::
        pySplitWsF fuel (rest.dropWhile (fun x => !pySpace x))

/-- Python `text.split()`: split on whitespace runs, dropping empties. -/
def pySplitWs (s : Str) : List Str := pySplitWsF s.length s

/-- `" ".join(text.split())` — the whitespace normalization in `_chunk`. -/
def normWs (s : Str) : Str := joinSep [' '] (pySplitWs s)

/-- The body of `_chunk`'s `while i < len(text)` loop, with explicit fuel:
starting at offset `i`, yield `text[i:i+size]` and advance by `step`
(`step` is Python's `size - overlap`).  `none` means the fuel ran out while
the loop guard was still true — i.e. the loop did not terminate within
`fuel` iterations. -/
def chunkAux (size step : Nat) (t : Str) : Nat → Nat → Option (List Str)
  | i, 0 => if i < t.length then none else some []
  | i, fuel + 1 =>
    if i < t.length then
      match chunkAux size step t (i + step) fuel with
      | some rest => some (((t.drop i).take size) :: rest)
      | none => none
    else some []

/-- `_chunk(text, size, overlap)` from `back/ingest_to_qdrant.py`:
normalize whitespace, then window with stride `size - overlap`.
Fuel `t.length` is enough whenever the stride is positive. -/
def pyChunk (text : Str) (size overlap : Nat) : Option (List Str) :=
  let t := normWs text
  chunkAux size (size - overlap) t 0 t.length

/-- The retryable status codes of `_post_with_retry`
(`back/openai_integration.py`). -/
def retryableStatus (s : Nat) : Bool :=
  s == 429 || s == 500 || s == 502 || s == 503 || s == 504

/-- `requests.Response.raise_for_status()`: raises exactly on 4xx/5xx. -/
def raisesForStatus (s : Nat) : Bool := 400 ≤ s && s < 600

/-- How a `_post_with_retry` call ends: a returned response (attempt index and
status), an `HTTPError` raised by `raise_for_status` (attempt index and
status), or the final `RuntimeError` when no attempt was made. -/
inductive RetryOutcome where
  | success (i : Nat) (status : Nat)
  | raised (i : Nat) (status : Nat)
  | exhausted
deriving DecidableEq

/-- Trace of one `_post_with_retry` call: the status codes of the POST
attempts actually made, the sleep durations (seconds) between them, and the
outcome. -/
structure RetryRun where
  attempts : List Nat
  sleeps : List ℚ
  outcome : RetryOutcome
deriving DecidableEq

/-- The `for i in range(max_retries)` loop of `_post_with_retry`, with the
HTTP layer abstracted by `status : Nat → Nat` (the status code of attempt
`i`).  `backoff = 1.5`, and attempt `i` (when retried) is followed by a sleep
of `backoff ** (i + 1)` seconds.  Fuel `maxRetries - i` always suffices. -/
def postRetryF (status : Nat → Nat) (maxRetries : Nat) : Nat → Nat → RetryRun
  | _, 0 => ⟨[], [], .exhausted⟩
  | i, fuel + 1 =>
    if i < maxRetries then
      if retryableStatus (status i) && decide (i < maxRetries - 1) then
        ⟨status i :: (postRetryF status maxRetries (i + 1) fuel).attempts,
         ((3 : ℚ) / 2) ^ (i + 1) :: (postRetryF status maxRetries (i + 1) fuel).sleeps,
         (postRetryF status maxRetries (i + 1) fuel).outcome⟩
      else if raisesForStatus (status i) then ⟨[status i], [], .raised i (status i)⟩
      else ⟨[status i], [], .success i (status i)⟩
    else ⟨[], [], .exhausted⟩

/-- `_post_with_retry(url, payload, timeout, max_retries)` as a trace. -/
def postWithRetry (status : Nat → Nat) (maxRetries : Nat) : RetryRun :=
  postRetryF status maxRetries 0 maxRetries

/-- One entry of the Asana in-memory cache (`back/asana_integration.py`):
`{"val": ..., "ts": time.time(), "ttl": ...}`.  Timestamps and TTLs are
modelled as integers (only their ordering matters to the code). -/
structure CacheEntry (α : Type) where
  val : α
  ts : Int
  ttl : Int
deriving DecidableEq

/-- The `_cache` dict, as an association list; a `dict` assignment prepends
(the newest binding shadows older ones under `cacheFind`). -/
abbrev AsanaCache (α : Type) := List (Str × CacheEntry α)

/-- Python `_cache.get(key)`. -/
def cacheFind {α : Type} : AsanaCache α → Str → Option (CacheEntry α)
  | [], _ => none
  | (k', e) :: rest, k => if k' = k then some e else cacheFind rest k

/-- `_cache_get(key)`: the stored value if the entry exists and its age
`now - ts` does not exceed its `ttl`, else `None`. -/
def cacheGet {α : Type} (now : Int) (c : AsanaCache α) (k : Str) : Option α :=
  (cacheFind c k).bind (fun e => if e.ttl < now - e.ts then none else some e.val)

/-- `_cache_put(key, val, ttl)`: store `{"val": val, "ts": now, "ttl": ttl}`. -/
def cachePut {α : Type} (now : Int) (c : AsanaCache α) (k : Str) (v : α) (ttl : Int) :
    AsanaCache α :=
  (k, ⟨v, now, ttl⟩) :: c

/-- The cache key `f"tasks:{project_gid}"`. -/
def tasksKey (gid : Str) : Str := "tasks:".toList ++ gid

/-- `_list_tasks_for_project(project_gid)`: return the cached task list if
fresh, otherwise fetch from the API (abstracted as `api`, absorbing the
`limit`/`opt_fields` request parameters) and re-store it with TTL
`ASANA_CACHE_TTL` (the `cacheTTL` parameter).  Returns the tasks and the
updated cache. -/
def listTasksForProject {α : Type} (api : Str → α) (cacheTTL now : Int)
    (c : AsanaCache α) (gid : Str) : α × AsanaCache α :=
  match cacheGet now c (tasksKey gid) with
  | some v => (v, c)
  | none => (api gid, cachePut now c (tasksKey gid) (api gid) cacheTTL)

/-- Python's `\w` word characters (ASCII model): alphanumerics and `_`. -/
def pyWordChar (c : Char) : Bool := c.isAlphanum || c == '_'

/-- A regex `\b` word boundary holds against an adjacent character `c`
exactly when `c` is absent (string edge) or not a word character
(for matching a word made of word characters). -/
def boundaryOk : Option Char → Bool
  | none => true
  | some c => !pyWordChar c

/-- `re.search(rf"\\b{w}\\b", s)` (for a word `w` of word characters) matches
at the start of `s` given the preceding character `prev`. -/
def wordAt (w s : Str) (prev : Option Char) : Bool :=
  boundaryOk prev && listStarts s w && boundaryOk (s.drop w.length).head?

/-- `re.search(rf"\\b{w}\\b", s)` matches somewhere in `s`, scanning with the
previously seen character. -/
def hasWordAux (w : Str) : Option Char → Str → Bool
  | prev, s =>
    wordAt w s prev ||
      (match s with
       | [] => false
       | c :: rest => hasWordAux w (some c) rest)

/-- `re.search(rf"\\b{w}\\b", s) is not None`. -/
def hasWord (w s : Str) : Bool := hasWordAux w none s

/-- One row parsed from `ga_metrics.csv` by `_load_ga_rows`
(`back/server.py`): optional date (as a day number), optional country and
page, integer user and event counts. -/
structure GARow where
  date : Option Int
  country : Option Str
  page : Option Str
  users : Int
  events : Int
deriving DecidableEq

/-- The environment `_maybe_answer_ga` reads: the `ENABLE_GA` flag, whether
`ga_metrics.csv` exists, and the rows `_load_ga_rows()` parses from it. -/
structure GAEnv where
  enableGA : Bool
  csvExists : Bool
  rows : List GARow
deriving DecidableEq

/-- Which GA rendering helper `_maybe_answer_ga` dispatches to, with its
arguments (`_ga_top_countries`, `_ga_top_pages`, `_ga_daily_users`,
`_ga_summary`); the final string rendering of each helper is not needed by
any claim and is left symbolic. -/
inductive GAReply where
  | topCountries (days : Nat) (rows : List GARow)
  | topPages (days : Nat) (rows : List GARow)
  | dailyUsers (days : Nat) (rows : List GARow)
  | summary (days : Nat) (rows : List GARow)
deriving DecidableEq

/-- `_maybe_answer_ga(q_lower)` from `back/server.py`: `None` unless GA is
enabled, the question mentions GA (`\bga\b`, `"google analytics"`,
`\banalytics\b`) or contains one of the metric keywords, the CSV file
exists, and it parses to at least one row; otherwise dispatch on the
keywords with a 7- or 30-day window. -/
def maybeAnswerGA (env : GAEnv) (qLower : Str) : Option GAReply :=
  if !env.enableGA then none
  else
    if !(hasWord ("ga".toList) qLower
          || strContains qLower ("google analytics".toList)
          || hasWord ("analytics".toList) qLower)
        && !(["top countries", "top pages", "busiest",
              "total active users", "daily active users", "daily users"].any
              (fun kw => strContains qLower kw.toList)) then
      none
    else if !env.csvExists then none
    else if env.rows.isEmpty then none
    else
      let days : Nat :=
        if strContains qLower ("30".toList) || strContains qLower ("last month".toList)
        then 30 else 7
      if strContains qLower ("top countries".toList) then
        some (.topCountries days env.rows)
      else if strContains qLower ("top pages".toList) then
        some (.topPages days env.rows)
      else if strContains qLower ("daily active users".toList)
          || strContains qLower ("daily users".toList) then
        some (.dailyUsers days env.rows)
      else some (.summary days env.rows)

/-- The trigger keywords of the GA fallback, as C8 lists them. -/
def gaTriggerKeywords : List Str :=
  ["ga", "google analytics", "analytics", "top countries", "top pages", "busiest",
   "total active users", "daily active users", "daily users"].map String.toList

/-- The character class `[^\s)>\]]` of `_URL_RE` is violated by (i.e. a URL
match is stopped by) whitespace, `)`, `>`, `]`. -/
def urlStop (c : Char) : Bool := pySpace c || c == ')' || c == '>' || c == ']'

/-- `ciStarts s pat` : `pat` (a lowercase pattern) matches at the start of
`s` case-insensitively — the `re.IGNORECASE` flag of `_URL_RE`. -/
def ciStarts (s pat : Str) : Bool := listStarts (pyLower s) pat

/-- The leftmost-greedy match of `_URL_RE = https?://[^\s)>\]]+`
(case-insensitive) at the start of `s`: `some n` gives the match length.
The scheme needs at least one non-delimiter character after `://`. -/
def matchURLLen (s : Str) : Option Nat :=
  if ciStarts s ("https://".toList) then
    match (s.drop 8).head? with
    | none => none
    | some d =>
      if urlStop d then none
      else some (8 + ((s.drop 8).takeWhile (fun c => !urlStop c)).length)
  else if ciStarts s ("http://".toList) then
    match (s.drop 7).head? with
    | none => none
    | some d =>
      if urlStop d then none
      else some (7 + ((s.drop 7).takeWhile (fun c => !urlStop c)).length)
  else none

/-- `_URL_RE.sub("", text)`, scanning left to right, with explicit fuel
(one unit per consumed character; `s.length` units always suffice). -/
def subURLsF : Nat → Str → Str
  | 0, _ => []
  | _, [] => []
  | fuel + 1, c :: rest =>
    match matchURLLen (c :: rest) with
    | some n => subURLsF fuel ((c :: rest).drop n)
    | none => c :: subURLsF fuel rest

/-- `_URL_RE.sub("", text)`: delete every raw-URL match. -/
def subURLs (s : Str) : Str := subURLsF s.length s

/-- The leftmost match of `_MD_LINK_RE = \[([^\]]+)\]\((https?://[^)]+)\)`
(case-sensitive) at the start of `s`: `some (title, n)` gives the link title
(regex group 1) and the match length. -/
def matchMDLink (s : Str) : Option (Str × Nat) :=
  match s with
  | '[' :: rest =>
    let title := rest.takeWhile (fun c => c != ']')
    if title.length == 0 then none
    else
      match rest.drop title.length with
      | ']' :: '(' :: rest2 =>
        let schemeLen : Nat :=
          if listStarts rest2 ("https://".toList) then 8
          else if listStarts rest2 ("http://".toList) then 7
          else 0
        if schemeLen == 0 then none
        else
          let run := (rest2.drop schemeLen).takeWhile (fun c => c != ')')
          if run.length == 0 then none
          else
            match (rest2.drop schemeLen).drop run.length with
            | ')' :: _ =>
              some (title, 1 + title.length + 2 + schemeLen + run.length + 1)
            | _ => none
      | _ => none
  | _ => none

/-- `_MD_LINK_RE.sub(lambda m: m.group(1).strip(), text)`: replace each
markdown link by its stripped title, with explicit fuel. -/
def subMDLinksF : Nat → Str → Str
  | 0, _ => []
  | _, [] => []
  | fuel + 1, c :: rest =>
    match matchMDLink (c :: rest) with
    | some (title, n) => pyStrip title ++ subMDLinksF fuel ((c :: rest).drop n)
    | none => c :: subMDLinksF fuel rest

/-- `_MD_LINK_RE.sub(lambda m: m.group(1).strip(), text)`. -/
def subMDLinks (s : Str) : Str := subMDLinksF s.length s

/-- The character class `[a-z0-9.\-]` (with `re.IGNORECASE`) of the
parenthetical-domain pattern. -/
def domChar (c : Char) : Bool :=
  ('a' ≤ c.toLower && c.toLower ≤ 'z') || c.isDigit || c == '.' || c == '-'

/-- The leftmost match of `\([a-z0-9.\-]+\.com\)` (case-insensitive) at the
start of `s`: `some n` gives the match length. -/
def matchParenDom (s : Str) : Option Nat :=
  match s with
  | '(' :: rest =>
    let run := rest.takeWhile domChar
    match rest.drop run.length with
    | ')' :: _ =>
      if 5 ≤ run.length && ciStarts run.reverse ("moc.".toList) then
        some (run.length + 2)
      else none
    | _ => none
  | _ => none

/-- `re.sub(r"\([a-z0-9\.\-]+\.com\)", "", text, flags=re.IGNORECASE)`,
with explicit fuel. -/
def subParenDomsF : Nat → Str → Str
  | 0, _ => []
  | _, [] => []
  | fuel + 1, c :: rest =>
    match matchParenDom (c :: rest) with
    | some n => subParenDomsF fuel ((c :: rest).drop n)
    | none => c :: subParenDomsF fuel rest

/-- Delete every parenthetical `.com` domain like `(example.com)`. -/
def subParenDoms (s : Str) : Str := subParenDomsF s.length s

/-- Python `text.splitlines()` (handling `\n`, `\r`, `\r\n`; no trailing
empty line for a trailing terminator). -/
def pySplitlinesAux (acc : Str) : Str → List Str
  | [] => [acc.reverse]
  | '\r' :: '\n' :: rest =>
    acc.reverse :: (match rest with | [] => [] | _ => pySplitlinesAux [] rest)
  | '\r' :: rest =>
    acc.reverse :: (match rest with | [] => [] | _ => pySplitlinesAux [] rest)
  | '\n' :: rest =>
    acc.reverse :: (match rest with | [] => [] | _ => pySplitlinesAux [] rest)
  | c :: rest => pySplitlinesAux (c :: acc) rest

/-- Python `text.splitlines()`. -/
def pySplitlines : Str → List Str
  | [] => []
  | s => pySplitlinesAux [] s

/-- `ln.startswith("###") or ln.startswith("## ")`. -/
def isHeading (ln : Str) : Bool :=
  listStarts ln ("###".toList) || listStarts ln ("## ".toList)

/-- `ln.lstrip("# ").strip()`: the heading text. -/
def headingOf (ln : Str) : Str :=
  pyStrip (ln.dropWhile (fun c => c == '#' || c == ' '))

/-- `f"**{heading}**"`. -/
def boldOf (ln : Str) : Str := "**".toList ++ headingOf ln ++ "**".toList

/-- `re.match(r"^\s*-\s+", ln)`: a markdown bullet line. -/
def bulletMatch (ln : Str) : Bool :=
  match ln.dropWhile pySpace with
  | c1 :: c2 :: _ => c1 == '-' && pySpace c2
  | _ => false

/-- `re.sub(r"^\s*-\s+", "• ", s)`: rewrite a leading markdown dash to a
unicode bullet (unchanged when the pattern does not match). -/
def bulletSub (s : Str) : Str :=
  match s.dropWhile pySpace with
  | c1 :: c2 :: rest =>
    if c1 == '-' && pySpace c2 then '•' :: ' ' :: ((c2 :: rest).dropWhile pySpace) else s
  | _ => s

/-- The `"• …"` overflow line appended by `flush_bullets`. -/
def bulletEll : Str := "• …".toList

/-- The separator logic `if out_lines and out_lines[-1] != "":
out_lines.append("")`. -/
def withSep (out : List Str) : List Str :=
  if out = [] then out
  else if out.getLast? = some [] then out
  else out ++ [[]]

/-- `bullet_buffer[:max_bullets] + ["• …"]` when over the limit. -/
def clipBullets (maxB : Nat) (buf : List Str) : List Str :=
  if maxB < buf.length then buf.take maxB ++ [bulletEll] else buf

/-- `flush_bullets()` from `_sanitize_answer_format`: emit the buffered
bullets (clipped, with a separating blank line before and after). -/
def flushB (maxB : Nat) (out buf : List Str) : List Str :=
  if buf = [] then out else withSep out ++ clipBullets maxB buf ++ [[]]

/-- The `for ln in lines:` loop of `_sanitize_answer_format`, carried out on
the state `(out_lines, bullet_buffer)`. -/
def procLines (maxB : Nat) : List Str → List Str → List Str → List Str
  | out, buf, [] => flushB maxB out buf
  | out, buf, ln :: rest =>
    if isHeading ln then
      procLines maxB (withSep (flushB maxB out buf) ++ [boldOf ln, []]) [] rest
    else if bulletMatch ln then
      procLines maxB out (buf ++ [bulletSub (pyStrip ln)]) rest
    else if !(pyStrip ln).isEmpty then
      procLines maxB (withSep (flushB maxB out buf) ++ [pyStrip ln]) [] rest
    else
      procLines maxB out buf rest

/-- `"\n".join(out_lines)`. -/
def joinNl (ls : List Str) : Str := joinSep ['\n'] ls

/-- `re.sub(r"\n{3,}", "\n\n", text)`: collapse runs of three or more
newlines to two, with explicit fuel. -/
def collapseNlF : Nat → Str → Str
  | 0, _ => []
  | _, [] => []
  | fuel + 1, c :: rest =>
    if c == '\n' then
      let run := (c :: rest).takeWhile (fun x => x == '\n')
      (if 3 ≤ run.length then ['\n', '\n'] else run) ++
        collapseNlF fuel ((c :: rest).dropWhile (fun x => x == '\n'))
    else c :: collapseNlF fuel rest

/-- `re.sub(r"\n{3,}", "\n\n", text)`. -/
def collapseNl (s : Str) : Str := collapseNlF s.length s

/-- The `lines = [ln.rstrip() for ln in text.splitlines()]` stage applied to
the link-stripped text: the lines `_sanitize_answer_format` iterates over. -/
def saniLines (text : Str) : List Str :=
  (pySplitlines (subParenDoms (subURLs (subMDLinks text)))).map rstripLine

/-- `_sanitize_answer_format(text, max_bullets)` from `back/server.py`
(the returned pair is `(clean_text, [])`). -/
def sanitizeAnswerFormat (text : Str) (maxB : Nat) : Str × List Str :=
  if text.isEmpty then ([], [])
  else
    (pyStrip (collapseNl (joinNl (procLines maxB [] [] (saniLines text)))), [])

/-- `s` contains a match of `_URL_RE` (an `https?://` scheme followed by at
least one non-delimiter character) at some position. -/
def hasLiveURL : Str → Bool
  | [] => false
  | c :: rest => (matchURLLen (c :: rest)).isSome || hasLiveURL rest

/-- The items the `_sanitize_answer_format` line loop emits: headings, plain
text lines, and buffered runs of (already rewritten) bullet lines. -/
inductive SanItem where
  | heading (h : Str)
  | textLine (t : Str)
  | bullets (bs : List Str)
deriving DecidableEq

/-- Parse the (rstripped) input lines into items, with `buf` the pending
bullet buffer: headings and non-empty text lines flush the buffer, bullet
lines extend it (rewritten by `bulletSub`), blank lines are skipped. -/
def parseAux (buf : List Str) : List Str → List SanItem
  | [] => if buf.isEmpty then [] else [.bullets buf]
  | ln :: rest =>
    if isHeading ln then
      (if buf.isEmpty then [] else [.bullets buf]) ++ .heading (headingOf ln) :: parseAux [] rest
    else if bulletMatch ln then
      parseAux (buf ++ [bulletSub (pyStrip ln)]) rest
    else if !(pyStrip ln).isEmpty then
      (if buf.isEmpty then [] else [.bullets buf]) ++ .textLine (pyStrip ln) :: parseAux [] rest
    else
      parseAux buf rest

/-- The items of a line list (empty initial buffer). -/
def parseItems (lines : List Str) : List SanItem := parseAux [] lines

/-- Emit one item onto `out_lines`, with the separator logic of
`_sanitize_answer_format`: a heading becomes a bold line plus a blank, a
text line is appended bare, a bullet run is clipped to `max_bullets` bullets
(plus `"• …"` exactly when it was longer) and followed by a blank. -/
def emitItem (maxB : Nat) (out : List Str) : SanItem → List Str
  | .heading h => withSep out ++ ["**".toList ++ h ++ "**".toList, []]
  | .textLine t => withSep out ++ [t]
  | .bullets bs => withSep out ++ clipBullets maxB bs ++ [[]]

/-- The reference rendering: fold `emitItem` over the parsed items. -/
def renderItems (maxB : Nat) (items : List SanItem) : List Str :=
  items.foldl (emitItem maxB) []

/-- An output line that renders as a bullet: it starts with `"• "`. -/
def isBulletish (l : Str) : Bool := listStarts l ("• ".toList)

/-- A finished run of `cur` consecutive bullet lines is within C6's bound:
at most `max_bullets` lines, or exactly `max_bullets + 1` with the last line
being the `"• …"` overflow marker (`ell` records whether the last line of
the run was `"• …"`). -/
def runEnd (maxB cur : Nat) (ell : Bool) : Bool :=
  decide (cur ≤ maxB) || ((cur == maxB + 1) && ell)

/-- Scan a line list, checking every maximal run of consecutive bullet lines
against `runEnd`; `cur`/`ell` describe the run in progress. -/
def runsOKAux (maxB : Nat) : Nat → Bool → List Str → Bool
  | cur, ell, [] => runEnd maxB cur ell
  | cur, ell, l :: rest =>
    if isBulletish l then runsOKAux maxB (cur + 1) (l == bulletEll) rest
    else runEnd maxB cur ell && runsOKAux maxB 0 false rest

/-- Every maximal run of consecutive bullet lines in `ls` has at most
`maxB` lines, or `maxB + 1` lines ending in `"• …"`. -/
def runsOK (maxB : Nat) (ls : List Str) : Bool := runsOKAux maxB 0 false ls

/-- Whether the last bullet of `bs` (default `e`) is the overflow marker. -/
def lastEllOf : List Str → Bool → Bool
  | [], e => e
  | l :: ls, _ => lastEllOf ls (l == bulletEll)

/-- One hit returned by the Qdrant `search` call, as `/ask` reads it:
`payload` is `none` when `h.get("payload")` is absent or falsy, and the
inner option is the payload's `"text"` field (`none` when missing). -/
structure Hit where
  payload : Option (Option Str)
deriving DecidableEq

/-- The context separator `"\n\n---\n\n"`. -/
def sepCtx : Str := "\n\n---\n\n".toList

/-- The context assembly of `/ask` step 4: keep the payload texts of hits
with a truthy payload, drop empty texts, join with `sepCtx`, and truncate to
`maxChars` characters (`[:MAX_CONTEXT_CHARS]`). -/
def contextOf (hits : List Hit) (maxChars : Nat) : Str :=
  (joinSep sepCtx
    (((hits.filterMap Hit.payload).map (fun p => p.getD [])).filter
      (fun c => !c.isEmpty))).take maxChars

/-- Which hashtag helper the hashtags fallback dispatches to. -/
inductive HashReply where
  | top
  | trending
  | suggest (q : Str)
  | anyTags
deriving DecidableEq

/-- The dispatch inside the hashtags branch of `/ask`
(`_hashtags_top` / `_hashtags_trending` / `_hashtags_suggest(q)` /
`_hashtags_any`; their CSV-rendered strings are not needed by any claim). -/
def hashReplyOf (qLower q : Str) : HashReply :=
  if strContains qLower ("top".toList) then .top
  else if strContains qLower ("trending".toList) then .trending
  else if strContains qLower ("suggest".toList) || strContains qLower ("relevant".toList)
      || strContains qLower ("for ".toList) then .suggest q
  else .anyTags

/-- The JSON body of a POST `/ask` request: the `"question"` and `"mode"`
fields (absent or non-string fields behave as `""` via `or ""`). -/
structure AskReq where
  question : Option Str
  mode : Option Str

/-- The environment the `/ask` handler reads: feature flags, the Asana /
GA / web / OpenAI / Qdrant services (as oracles, with explicit failure
flags for the `try`/`except` blocks), and the `TOP_K` /
`MAX_CONTEXT_CHARS` configuration. -/
structure AskEnv where
  enableWebSearch : Bool
  enableGA : Bool
  webFails : Bool
  webText : Str
  webErrMsg : Str
  asanaAvail : Bool
  asanaAnswer : Str → Str
  gaCsvExists : Bool
  gaRows : List GARow
  embedFails : Bool
  embedErrMsg : Str
  searchFails : Bool
  search : Nat → List Hit
  chatFails : Bool
  chatText : Str
  chatErrMsg : Str
  topK : Nat
  maxContextChars : Nat

/-- The response of the `/ask` handler, by exit point. -/
inductive AskResult where
  | badRequest
  | webAnswer (text : Str)
  | webError (msg : Str)
  | asanaAnswer (text : Str)
  | gaAnswer (r : GAReply)
  | hashtagsAnswer (r : HashReply)
  | embedError (msg : Str)
  | ragAnswer (topK : Nat) (context : Str) (text : Str)
  | ragChatError (topK : Nat) (context : Str) (msg : Str)
  | ragEmpty (topK : Nat) (context : Str)
deriving DecidableEq

/-- The "newsy" keyword test of `/ask` step 0. -/
def newsyHit (qLower : Str) : Bool :=
  ["news", "breaking", "today", "latest", "headline", "update"].any
    (fun k => strContains qLower k.toList)

/-- Whether `/ask` enters the web branch: `ENABLE_WEB_SEARCH` and
(`mode == "web"` or a newsy keyword). -/
def webTaken (env : AskEnv) (req : AskReq) (qLower : Str) : Bool :=
  env.enableWebSearch && ((pyLower ((req.mode).getD []) == "web".toList) || newsyHit qLower)

/-- Whether the Asana fallback fires: `asana_available()` and one of the
keywords `asana/task/ticket/project/tasks` in the lowercased question. -/
def asanaHit (env : AskEnv) (qLower : Str) : Bool :=
  env.asanaAvail && (["asana", "task", "ticket", "project", "tasks"].any
    (fun k => strContains qLower k.toList))

/-- Whether the hashtags fallback fires. -/
def hashHit (qLower : Str) : Bool :=
  strContains qLower ("hashtag".toList) || listStarts qLower ("#".toList)
    || strContains qLower ("hashtags".toList)

/-- `/ask` from the Asana fallback on (steps 1-6): Asana, then GA, then
hashtags, then embed + vector search + grounded chat. -/
def contAsk (env : AskEnv) (q qLower : Str) : AskResult :=
  if asanaHit env qLower then
    .asanaAnswer (sanitizeAnswerFormat (env.asanaAnswer q) 5).1
  else
    match maybeAnswerGA ⟨env.enableGA, env.gaCsvExists, env.gaRows⟩ qLower with
    | some r => .gaAnswer r
    | none =>
      if hashHit qLower then .hashtagsAnswer (hashReplyOf qLower q)
      else if env.embedFails then .embedError env.embedErrMsg
      else
        let hits := if env.searchFails then [] else env.search env.topK
        let ctx := contextOf hits env.maxContextChars
        if !(pyStrip ctx).isEmpty then
          if env.chatFails then .ragChatError env.topK ctx env.chatErrMsg
          else .ragAnswer env.topK ctx (sanitizeAnswerFormat (pyStrip env.chatText) 5).1
        else .ragEmpty env.topK ctx

/-- The `/ask` handler (`back/server.py`): reject empty questions, try the
web branch (which falls through to the fallbacks when its cleaned text is
empty), then `contAsk`. -/
def ask (env : AskEnv) (req : AskReq) : AskResult :=
  let q := pyStrip ((req.question).getD [])
  if q.isEmpty then .badRequest
  else
    let qLower := pyLower q
    if webTaken env req qLower then
      if env.webFails then .webError env.webErrMsg
      else
        let clean := (sanitizeAnswerFormat env.webText 5).1
        if !clean.isEmpty then .webAnswer clean
        else contAsk env q qLower
    else contAsk env q qLower

/-- The HTTP status each exit of `/ask` responds with. -/
def askStatus : AskResult → Nat
  | .badRequest => 400
  | .webError _ => 502
  | .ragChatError _ _ _ => 502
  | .embedError _ => 500
  | _ => 200

/-- The `"error"` field each exit of `/ask` responds with. -/
def askError : AskResult → Option Str
  | .badRequest => some ("Missing question".toList)
  | .webError m => some m
  | .ragChatError _ _ m => some m
  | .embedError m => some m
  | _ => none

/-- Whether the result comes from the RAG path, i.e. the handler called
`embed_text` (and, unless that raised, the vector search). -/
def isRagResult : AskResult → Bool
  | .embedError _ => true
  | .ragAnswer _ _ _ => true
  | .ragChatError _ _ _ => true
  | .ragEmpty _ _ => true
  | _ => false

/-- Projection of the RAG results onto the `(top_k, context)` pair the
handler used for the vector search and the grounded chat call. -/
def ragContext? : AskResult → Option (Nat × Str)
  | .ragAnswer k c _ => some (k, c)
  | .ragChatError k c _ => some (k, c)
  | .ragEmpty k c => some (k, c)
  | _ => none

/-- A concrete `/ask` environment for the router witnesses: web search off,
Asana available and answering `"ok"`, GA enabled with no CSV, search
returning one hit. -/
def askEnvW : AskEnv :=
  ⟨false, true, false, [], [], true, fun _ => "ok".toList, false, [], false, [],
   false, fun _ => [⟨some (some ("hello world".toList))⟩], false, "fine".toList, [],
   24, 24000⟩

theorem dropWhile_length_le (p : α → Bool) (l : List α) :
    (l.dropWhile p).length ≤ l.length :=
  (List.dropWhile_suffix p).sublist.length_le

theorem chunkAux_length_le {size step : Nat} {t : Str} :
    ∀ fuel i l, chunkAux size step t i fuel = some l →
      ∀ c ∈ l, c.length ≤ size := by
  intro fuel
  induction fuel with
  | zero =>
    intro i l h c hc
    simp only [chunkAux] at h
    split at h
    · exact absurd h (by simp)
    · simp at h; subst h; simp at hc
  | succ fuel ih =>
    intro i l h c hc
    simp only [chunkAux] at h
    split at h
    · cases hrec : chunkAux size step t (i + step) fuel with
      | some rest =>
        rw [hrec] at h
        simp at h
        subst h
        rcases List.mem_cons.mp hc with hc | hc
        · subst hc; exact List.length_take_le _ _
        · exact ih (i + step) rest hrec c hc
      | none => rw [hrec] at h; simp at h
    · simp at h; subst h; simp at hc

theorem chunkAux_spec (size step : Nat) (t : Str) (hstep : 0 < step) :
    ∀ fuel i, t.length - i ≤ fuel →
      ∃ l, chunkAux size step t i fuel = some l ∧
        l.length = (t.length - i + step - 1) / step ∧
        ∀ k (hk : k < l.length), l.get ⟨k, hk⟩ = (t.drop (i + k * step)).take size := by
  intro fuel
  induction fuel with
  | zero =>
    intro i hi
    have hge : ¬ i < t.length := by omega
    refine ⟨[], by simp [chunkAux, hge], ?_, by intro k hk; simp at hk⟩
    have : t.length - i = 0 := by omega
    rw [this]
    exact (Nat.div_eq_of_lt (by omega)).symm
  | succ fuel ih =>
    intro i hi
    by_cases hlt : i < t.length
    · obtain ⟨rest, hrest, hlen, hwin⟩ := ih (i + step) (by omega)
      refine ⟨((t.drop i).take size) :: rest, by simp [chunkAux, hlt, hrest], ?_, ?_⟩
      · rw [List.length_cons, hlen]
        by_cases hL : t.length - i ≤ step
        · have h1 : t.length - (i + step) = 0 := by omega
          rw [h1]
          rw [Nat.div_eq_of_lt (by omega : 0 + step - 1 < step)]
          have h2 : (t.length - i + step - 1) / step = 1 := by
            apply Nat.div_eq_of_lt_le
            · omega
            · omega
          omega
        · have h1 : t.length - i + step - 1 = (t.length - (i + step) + step - 1) + step := by
            omega
          rw [h1, Nat.add_div_right _ hstep]
      · intro k hk
        match k with
        | 0 => simp
        | k + 1 =>
          have hk' : k < rest.length := by simpa using hk
          have := hwin k hk'
          simp only [List.get_cons_succ]
          rw [this]
          ring_nf
    · refine ⟨[], by simp [chunkAux, hlt], ?_, by intro k hk; simp at hk⟩
      have : t.length - i = 0 := by omega
      rw [this]
      exact (Nat.div_eq_of_lt (by omega)).symm

theorem chunkAux_diverges (size : Nat) (t : Str) (ht : t ≠ []) :
    ∀ fuel, chunkAux size 0 t 0 fuel = none := by
  have hlen : 0 < t.length := List.length_pos.mpr ht
  intro fuel
  induction fuel with
  | zero => simp [chunkAux, hlen]
  | succ fuel ih => simp [chunkAux, hlen, ih]

/-- C2: with `overlap < size`, `_chunk` yields exactly the windows
`text[k*(size-overlap) : k*(size-overlap)+size]` of the whitespace-normalized
text; every chunk has length at most `size`; whenever chunk `k+1` is
full-length, the last `overlap` characters of chunk `k` are exactly the first
`overlap` characters of chunk `k+1`; and every character of the normalized
text occurs in at least one chunk. -/
theorem chunk_windows (text : Str) (size overlap : Nat) (h : overlap < size) :
    ∃ l, pyChunk text size overlap = some l ∧
      (∀ k (hk : k < l.length),
        l.get ⟨k, hk⟩ = ((normWs text).drop (k * (size - overlap))).take size) ∧
      (∀ c ∈ l, c.length ≤ size) ∧
      (∀ k (hk : k + 1 < l.length),
        (l.get ⟨k + 1, hk⟩).length = size →
          ((l.get ⟨k, Nat.lt_of_succ_lt hk⟩).drop (size - overlap)).length = overlap ∧
          (l.get ⟨k, Nat.lt_of_succ_lt hk⟩).drop (size - overlap)
            = (l.get ⟨k + 1, hk⟩).take overlap) ∧
      (∀ j (hj : j < (normWs text).length),
        ∃ k, ∃ hk : k < l.length, (normWs text).get ⟨j, hj⟩ ∈ l.get ⟨k, hk⟩) := by
  set t := normWs text with ht
  set step := size - overlap with hstepdef
  have hstep : 0 < step := by omega
  obtain ⟨l, heq, hlen, hwin⟩ := chunkAux_spec size step t hstep t.length 0 (by omega)
  have hwin0 : ∀ k (hk : k < l.length), l.get ⟨k, hk⟩ = (t.drop (k * step)).take size := by
    intro k hk
    rw [hwin k hk]
    simp
  refine ⟨l, heq, hwin0, ?_, ?_, ?_⟩
  · intro c hc
    obtain ⟨⟨k, hk⟩, rfl⟩ := List.mem_iff_get.mp hc
    rw [hwin0 k hk]
    exact List.length_take_le _ _
  · intro k hk hfull
    have hk0 : k < l.length := Nat.lt_of_succ_lt hk
    rw [hwin0 (k + 1) hk] at hfull
    rw [List.length_take] at hfull
    have hle' : size ≤ (t.drop ((k + 1) * step)).length := min_eq_left_iff.mp hfull
    have hle : size ≤ t.length - (k + 1) * step := by
      rw [List.length_drop] at hle'; omega
    rw [hwin0 k hk0, hwin0 (k + 1) hk]
    have hdt : ((t.drop (k * step)).take size).drop step
        = (t.drop ((k + 1) * step)).take overlap := by
      rw [List.drop_take]
      have h1 : (t.drop (k * step)).drop step = t.drop ((k + 1) * step) := by
        rw [List.drop_drop]
        congr 1
        ring
      rw [h1]
      congr 1
      omega
    constructor
    · rw [hdt, List.length_take, List.length_drop]
      omega
    · rw [hdt, List.take_take]
      congr 1
      omega
  · intro j hj
    have hklt : j / step < l.length := by
      have h1 : l.length = (t.length + step - 1) / step := by rw [hlen, Nat.sub_zero]
      have h2 : j / step ≤ (t.length - 1) / step :=
        Nat.div_le_div_right (by omega)
      have h3 : (t.length + step - 1) / step = (t.length - 1) / step + 1 := by
        have : t.length + step - 1 = (t.length - 1) + step := by omega
        rw [this, Nat.add_div_right _ hstep]
      omega
    refine ⟨j / step, hklt, ?_⟩
    rw [hwin0 _ hklt]
    have hr : j % step < step := Nat.mod_lt _ hstep
    have hdm : j / step * step + j % step = j := by
      have h0 := Nat.div_add_mod j step
      rw [Nat.mul_comm] at h0
      exact h0
    have hmem : ((t.drop (j / step * step)).take size).get
        ⟨j % step, by
          rw [List.length_take, List.length_drop]
          have : j / step * step ≤ j := by omega
          omega⟩ = t.get ⟨j, hj⟩ := by
      simp only [List.get_eq_getElem, List.getElem_take, List.getElem_drop]
      congr 1
    rw [← hmem]
    exact List.get_mem _ _ _

/-- Witness for C2 at a concrete input: `_chunk("spam  and eggs", 6, 2)`. -/
theorem chunk_windows_witness :
    ∃ l, pyChunk ("spam  and eggs".toList) 6 2 = some l ∧ ∀ c ∈ l, c.length ≤ 6 := by
  obtain ⟨l, h1, _, h3, _, _⟩ := chunk_windows ("spam  and eggs".toList) 6 2 (by omega)
  exact ⟨l, h1, h3⟩

/-- C10: the `_chunk` loop terminates precisely when `overlap < size`
(the index then advances by the positive stride `size - overlap` each
iteration, and `ceil(L / (size-overlap))` chunks are produced for
normalized length `L`, zero chunks for empty text), whereas with
`overlap >= size` the loop never finishes on any non-empty normalized text
(no amount of fuel makes the guard `i < len(text)` fail). -/
theorem chunk_termination (size overlap : Nat) (text : Str) :
    (overlap < size →
      ∃ l, pyChunk text size overlap = some l ∧
        l.length = ((normWs text).length + (size - overlap) - 1) / (size - overlap))
    ∧ (size ≤ overlap → normWs text ≠ [] →
        ∀ fuel, chunkAux size (size - overlap) (normWs text) 0 fuel = none) := by
  constructor
  · intro h
    obtain ⟨l, heq, hlen, _⟩ :=
      chunkAux_spec size (size - overlap) (normWs text) (by omega) (normWs text).length 0
        (by omega)
    refine ⟨l, heq, ?_⟩
    rw [hlen, Nat.sub_zero]
  · intro h hne fuel
    have hz : size - overlap = 0 := by omega
    rw [hz]
    exact chunkAux_diverges size (normWs text) hne fuel

/-- Witness for C10: termination with a positive stride, divergence with
stride zero, at concrete inputs. -/
theorem chunk_termination_witness :
    (∃ l, pyChunk ("abc".toList) 2 1 = some l ∧ l.length = 3)
    ∧ chunkAux 1 0 ("a".toList) 0 5 = none := by
  constructor
  · obtain ⟨l, h1, h2⟩ := (chunk_termination 2 1 ("abc".toList)).1 (by omega)
    refine ⟨l, h1, ?_⟩
    rw [h2]
    decide
  · have h := (chunk_termination 1 1 ("a".toList)).2 (by omega) (by decide) 5
    simpa using h

theorem postRetryF_spec (status : Nat → Nat) (maxRetries : Nat) :
    ∀ fuel i, maxRetries - i ≤ fuel →
      (postRetryF status maxRetries i fuel).attempts
        = (List.range' i (postRetryF status maxRetries i fuel).attempts.length).map status
      ∧ (postRetryF status maxRetries i fuel).attempts.length ≤ maxRetries - i
      ∧ (postRetryF status maxRetries i fuel).sleeps
        = (List.range' (i + 1) ((postRetryF status maxRetries i fuel).attempts.length - 1)).map
            (fun k => ((3 : ℚ) / 2) ^ k)
      ∧ (∀ j, j + 1 < (postRetryF status maxRetries i fuel).attempts.length →
          retryableStatus (status (i + j)) = true)
      ∧ (∀ j s, (postRetryF status maxRetries i fuel).outcome = .success j s →
          s = status j ∧ j + 1 = i + (postRetryF status maxRetries i fuel).attempts.length ∧
          raisesForStatus s = false)
      ∧ (∀ j s, (postRetryF status maxRetries i fuel).outcome = .raised j s →
          s = status j ∧ j + 1 = i + (postRetryF status maxRetries i fuel).attempts.length ∧
          raisesForStatus s = true ∧ (retryableStatus s = true → j + 1 = maxRetries))
      ∧ ((postRetryF status maxRetries i fuel).outcome = .exhausted →
          maxRetries ≤ i ∧ (postRetryF status maxRetries i fuel).attempts = [])
      ∧ ((postRetryF status maxRetries i fuel).attempts = [] →
          (postRetryF status maxRetries i fuel).outcome = .exhausted) := by
  intro fuel
  induction fuel with
  | zero =>
    intro i hf
    show _ ∧ _
    rw [show postRetryF status maxRetries i 0 = ⟨[], [], .exhausted⟩ from rfl]
    refine ⟨by simp, by simp, by simp, ?_, ?_, ?_, ?_, ?_⟩
    · intro j hj; simp at hj
    · intro j s h; simp at h
    · intro j s h; simp at h
    · intro _; exact ⟨by omega, rfl⟩
    · intro _; rfl
  | succ fuel ih =>
    intro i hf
    by_cases hi : i < maxRetries
    · by_cases hbr : retryableStatus (status i) && decide (i < maxRetries - 1)
      · have hlt : i < maxRetries - 1 := by
          have := (Bool.and_eq_true _ _).mp hbr
          exact of_decide_eq_true this.2
        have hretry : retryableStatus (status i) = true :=
          ((Bool.and_eq_true _ _).mp hbr).1
        obtain ⟨ih1, ih2, ih3, ih4, ih5, ih6, ih7, ih8⟩ := ih (i + 1) (by omega)
        have hnlen : 1 ≤ (postRetryF status maxRetries (i + 1) fuel).attempts.length := by
          cases h : (postRetryF status maxRetries (i + 1) fuel).attempts with
          | nil =>
            have := (ih7 (ih8 h)).1
            omega
          | cons a as => simp
        rw [show postRetryF status maxRetries i (fuel + 1)
              = ⟨status i :: (postRetryF status maxRetries (i + 1) fuel).attempts,
                 ((3 : ℚ) / 2) ^ (i + 1) :: (postRetryF status maxRetries (i + 1) fuel).sleeps,
                 (postRetryF status maxRetries (i + 1) fuel).outcome⟩ from by
          simp [postRetryF, hi, hbr]]
        refine ⟨?_, ?_, ?_, ?_, ?_, ?_, ?_, ?_⟩
        · simp only [List.length_cons, List.range'_succ, List.map_cons]
          exact List.cons_eq_cons.mpr ⟨rfl, ih1⟩
        · simp only [List.length_cons]
          omega
        · simp only [List.length_cons, Nat.add_sub_cancel]
          rw [ih3]
          rw [show (postRetryF status maxRetries (i + 1) fuel).attempts.length
                = ((postRetryF status maxRetries (i + 1) fuel).attempts.length - 1) + 1 from by
            omega]
          rw [List.range'_succ, List.map_cons]
          simp
        · intro j hj
          match j with
          | 0 => simpa using hretry
          | j + 1 =>
            have hji := ih4 j (by simp only [List.length_cons] at hj; omega)
            have harith : i + (j + 1) = (i + 1) + j := by omega
            rw [harith]
            exact hji
        · intro j s h
          simp only at h
          obtain ⟨h1, h2, h3⟩ := ih5 j s h
          exact ⟨h1, by simp only [List.length_cons]; omega, h3⟩
        · intro j s h
          simp only at h
          obtain ⟨h1, h2, h3, h4⟩ := ih6 j s h
          exact ⟨h1, by simp only [List.length_cons]; omega, h3, h4⟩
        · intro h
          simp only at h
          have := (ih7 h).1
          omega
        · intro h
          simp at h
      · by_cases hra : raisesForStatus (status i)
        · rw [show postRetryF status maxRetries i (fuel + 1)
                = ⟨[status i], [], .raised i (status i)⟩ from by
            simp [postRetryF, hi, hbr, hra]]
          refine ⟨by simp, by simp only [List.length_cons, List.length_nil]; omega,
                  by simp, ?_, ?_, ?_, ?_, ?_⟩
          · intro j hj; simp at hj
          · intro j s h; simp at h
          · intro j s h
            simp only [RetryOutcome.raised.injEq] at h
            obtain ⟨rfl, rfl⟩ := h
            refine ⟨rfl, by simp, hra, ?_⟩
            intro hretry
            have hnot : ¬ (i < maxRetries - 1) := by
              intro hc
              rw [hretry] at hbr
              simp [hc] at hbr
            omega
          · intro h; simp at h
          · intro h; simp at h
        · rw [show postRetryF status maxRetries i (fuel + 1)
                = ⟨[status i], [], .success i (status i)⟩ from by
            simp [postRetryF, hi, hbr, hra]]
          refine ⟨by simp, by simp only [List.length_cons, List.length_nil]; omega,
                  by simp, ?_, ?_, ?_, ?_, ?_⟩
          · intro j hj; simp at hj
          · intro j s h
            simp only [RetryOutcome.success.injEq] at h
            obtain ⟨rfl, rfl⟩ := h
            exact ⟨rfl, by simp, by simpa using hra⟩
          · intro j s h; simp at h
          · intro h; simp at h
          · intro h; simp at h
    · rw [show postRetryF status maxRetries i (fuel + 1) = ⟨[], [], .exhausted⟩ from by
        simp [postRetryF, hi]]
      refine ⟨by simp, by simp, by simp, ?_, ?_, ?_, ?_, ?_⟩
      · intro j hj; simp at hj
      · intro j s h; simp at h
      · intro j s h; simp at h
      · intro _; exact ⟨by omega, rfl⟩
      · intro _; rfl

/-- C4: `_post_with_retry` makes at most `max_retries` POST attempts; the
attempted statuses are those of consecutive attempts `0, 1, ...`; every
attempt that is followed by another had a retryable status
(429/500/502/503/504); the sleeps between attempts are exactly
`1.5 ** 1, 1.5 ** 2, ...` (base `backoff = 1.5`, sleep `backoff ** (i+1)`
after attempt `i`); a non-retryable error status raises immediately at that
attempt; a success status returns that response; a final attempt with a
retryable status raises (retryable statuses are 4xx/5xx, and when it is
retryable the raising attempt is the last allowed one); and the
`RuntimeError` fallthrough happens only when `max_retries = 0`. -/
theorem post_with_retry_c4 (status : Nat → Nat) (maxRetries : Nat) :
    (postWithRetry status maxRetries).attempts.length ≤ maxRetries
    ∧ (postWithRetry status maxRetries).attempts
      = (List.range' 0 (postWithRetry status maxRetries).attempts.length).map status
    ∧ (postWithRetry status maxRetries).sleeps
      = (List.range' 1 ((postWithRetry status maxRetries).attempts.length - 1)).map
          (fun k => ((3 : ℚ) / 2) ^ k)
    ∧ (∀ j, j + 1 < (postWithRetry status maxRetries).attempts.length →
        retryableStatus (status j) = true)
    ∧ (∀ j s, (postWithRetry status maxRetries).outcome = .success j s →
        s = status j ∧ j + 1 = (postWithRetry status maxRetries).attempts.length ∧
        raisesForStatus s = false)
    ∧ (∀ j s, (postWithRetry status maxRetries).outcome = .raised j s →
        s = status j ∧ j + 1 = (postWithRetry status maxRetries).attempts.length ∧
        raisesForStatus s = true ∧ (retryableStatus s = true → j + 1 = maxRetries))
    ∧ ((postWithRetry status maxRetries).outcome = .exhausted → maxRetries = 0) := by
  unfold postWithRetry
  obtain ⟨h1, h2, h3, h4, h5, h6, h7, _⟩ :=
    postRetryF_spec status maxRetries maxRetries 0 (by omega)
  refine ⟨by simpa using h2, h1, by simpa using h3, ?_, ?_, ?_, ?_⟩
  · intro j hj
    simpa using h4 j hj
  · intro j s h
    obtain ⟨g1, g2, g3⟩ := h5 j s h
    exact ⟨g1, by omega, g3⟩
  · intro j s h
    obtain ⟨g1, g2, g3, g4⟩ := h6 j s h
    exact ⟨g1, by omega, g3, g4⟩
  · intro h
    have := (h7 h).1
    omega

/-- Witness for C4: two attempts against a server that always answers 503:
both attempts happen, one sleep of 1.5 s, and the call raises at attempt 1. -/
theorem post_with_retry_c4_witness :
    (postWithRetry (fun _ => 503) 2).attempts.length ≤ 2
    ∧ (postWithRetry (fun _ => 503) 2).outcome = .raised 1 503
    ∧ retryableStatus 503 = true
    ∧ (1 : Nat) + 1 = 2 := by
  obtain ⟨h1, _, _, _, _, h6, _⟩ := post_with_retry_c4 (fun _ => 503) 2
  have hout : (postWithRetry (fun _ => 503) 2).outcome = .raised 1 503 := by decide
  obtain ⟨_, _, _, g4⟩ := h6 1 503 hout
  exact ⟨h1, hout, by decide, g4 (by decide)⟩

/-- C3: `_cache_get` returns the stored value exactly when an entry for the
key exists and its age `now - ts` is at most its `ttl`, and `None`
otherwise; consequently, when the cached entry for a project's task list is
older than its TTL, `_list_tasks_for_project` re-fetches from the API and
re-stores the result with TTL `ASANA_CACHE_TTL`. -/
theorem cache_ttl_c3 {α : Type} (api : Str → α) (cacheTTL now : Int)
    (c : AsanaCache α) (k gid : Str) :
    (∀ v : α, cacheGet now c k = some v ↔
      ∃ e, cacheFind c k = some e ∧ now - e.ts ≤ e.ttl ∧ v = e.val)
    ∧ (cacheGet now c k = none ↔
      (cacheFind c k = none ∨ ∃ e, cacheFind c k = some e ∧ e.ttl < now - e.ts))
    ∧ (∀ e, cacheFind c (tasksKey gid) = some e → e.ttl < now - e.ts →
        listTasksForProject api cacheTTL now c gid
          = (api gid, cachePut now c (tasksKey gid) (api gid) cacheTTL)
        ∧ cacheFind (cachePut now c (tasksKey gid) (api gid) cacheTTL) (tasksKey gid)
          = some ⟨api gid, now, cacheTTL⟩) := by
  refine ⟨?_, ?_, ?_⟩
  · intro v
    constructor
    · intro h
      unfold cacheGet at h
      cases hf : cacheFind c k with
      | none => rw [hf] at h; simp at h
      | some e =>
        rw [hf, Option.some_bind] at h
        by_cases hage : e.ttl < now - e.ts
        · rw [if_pos hage] at h; simp at h
        · rw [if_neg hage] at h
          simp at h
          exact ⟨e, rfl, by omega, h.symm⟩
    · rintro ⟨e, hf, hage, rfl⟩
      unfold cacheGet
      rw [hf, Option.some_bind, if_neg (by omega)]
  · constructor
    · intro h
      unfold cacheGet at h
      cases hf : cacheFind c k with
      | none => exact Or.inl rfl
      | some e =>
        rw [hf, Option.some_bind] at h
        by_cases hage : e.ttl < now - e.ts
        · exact Or.inr ⟨e, rfl, hage⟩
        · rw [if_neg hage] at h; simp at h
    · intro h
      unfold cacheGet
      rcases h with h | ⟨e, hf, hage⟩
      · rw [h]; rfl
      · rw [hf, Option.some_bind, if_pos hage]
  · intro e hf hage
    have hnone : cacheGet now c (tasksKey gid) = none := by
      unfold cacheGet
      rw [hf, Option.some_bind, if_pos hage]
    constructor
    · unfold listTasksForProject
      rw [hnone]
    · unfold cachePut cacheFind
      rw [if_pos rfl]

/-- Witness for C3: a concrete stale entry (stored at time 0 with TTL 300,
read at time 301) is expired, so the project's tasks are re-fetched and
re-stored. -/
theorem cache_ttl_c3_witness :
    cacheGet (301 : Int) [(tasksKey ("g1".toList), ⟨(7 : Nat), 0, 300⟩)]
        (tasksKey ("g1".toList)) = none
    ∧ listTasksForProject (fun _ => (9 : Nat)) 300 301
        [(tasksKey ("g1".toList), ⟨7, 0, 300⟩)] ("g1".toList)
      = (9, (tasksKey ("g1".toList), ⟨9, 301, 300⟩)
            :: [(tasksKey ("g1".toList), ⟨7, 0, 300⟩)]) := by
  obtain ⟨_, h2, h3⟩ := cache_ttl_c3 (fun _ => (9 : Nat)) 300 301
    [(tasksKey ("g1".toList), ⟨7, 0, 300⟩)] (tasksKey ("g1".toList)) ("g1".toList)
  have hf : cacheFind [(tasksKey ("g1".toList), (⟨7, 0, 300⟩ : CacheEntry Nat))]
      (tasksKey ("g1".toList)) = some ⟨7, 0, 300⟩ := by decide
  have hstale := h3 ⟨7, 0, 300⟩ hf (by decide)
  refine ⟨h2.mpr (Or.inr ⟨⟨7, 0, 300⟩, hf, by decide⟩), ?_⟩
  rw [hstale.1]
  rfl

theorem hasWordAux_contains (w : Str) :
    ∀ s prev, hasWordAux w prev s = true → strContains s w = true := by
  intro s
  induction s with
  | nil =>
    intro prev h
    simp only [hasWordAux, wordAt] at h
    simp only [Bool.or_false, Bool.and_eq_true] at h
    simpa [strContains] using h.1.2
  | cons c rest ih =>
    intro prev h
    simp only [hasWordAux] at h
    rw [Bool.or_eq_true] at h
    rcases h with h | h
    · simp only [wordAt, Bool.and_eq_true] at h
      simp [strContains, h.1.2]
    · simp [strContains, ih (some c) h]

theorem hasWord_contains (w s : Str) (h : hasWord w s = true) : strContains s w = true :=
  hasWordAux_contains w s none h

/-- C8: `_maybe_answer_ga` returns `None` whenever GA is disabled, or the
lowercased question contains none of the GA trigger keywords, or the GA CSV
is absent, or it parses to zero rows; and it returns an answer only when the
question contains a trigger keyword, the CSV is present, and it has rows.
(The code is even stricter: the `"ga"` / `"analytics"` mentions must match
with `\b` word boundaries, which implies plain containment.) -/
theorem ga_trigger_c8 (env : GAEnv) (q : Str) :
    ((env.enableGA = false
      ∨ (∀ kw ∈ gaTriggerKeywords, strContains q kw = false)
      ∨ env.csvExists = false
      ∨ env.rows = []) → maybeAnswerGA env q = none)
    ∧ (maybeAnswerGA env q ≠ none →
        (∃ kw ∈ gaTriggerKeywords, strContains q kw = true)
        ∧ env.csvExists = true ∧ env.rows ≠ []) := by
  constructor
  · intro hdisj
    rcases hdisj with h | h | h | h
    · simp [maybeAnswerGA, h]
    · have hga : hasWord ("ga".toList) q = false := by
        cases hw : hasWord ("ga".toList) q
        · rfl
        · have hc := hasWord_contains _ _ hw
          have hh := h ("ga".toList) (by simp [gaTriggerKeywords])
          rw [hh] at hc
          exact absurd hc (by simp)
      have hanal : hasWord ("analytics".toList) q = false := by
        cases hw : hasWord ("analytics".toList) q
        · rfl
        · have hc := hasWord_contains _ _ hw
          have hh := h ("analytics".toList) (by simp [gaTriggerKeywords])
          rw [hh] at hc
          exact absurd hc (by simp)
      have hgoog : strContains q ("google analytics".toList) = false :=
        h _ (by simp [gaTriggerKeywords])
      have h1 : strContains q ("top countries".toList) = false :=
        h _ (by simp [gaTriggerKeywords])
      have h2 : strContains q ("top pages".toList) = false :=
        h _ (by simp [gaTriggerKeywords])
      have h3 : strContains q ("busiest".toList) = false :=
        h _ (by simp [gaTriggerKeywords])
      have h4 : strContains q ("total active users".toList) = false :=
        h _ (by simp [gaTriggerKeywords])
      have h5 : strContains q ("daily active users".toList) = false :=
        h _ (by simp [gaTriggerKeywords])
      have h6 : strContains q ("daily users".toList) = false :=
        h _ (by simp [gaTriggerKeywords])
      by_cases henv : env.enableGA
      · unfold maybeAnswerGA
        rw [if_neg (by simp [henv])]
        rw [if_pos (by
          simp only [List.any_cons, List.any_nil, hga, hanal, hgoog,
            h1, h2, h3, h4, h5, h6]
          decide)]
      · simp [maybeAnswerGA, henv]
    · unfold maybeAnswerGA
      split_ifs <;> simp_all
    · unfold maybeAnswerGA
      split_ifs <;> simp_all
  · intro hne
    unfold maybeAnswerGA at hne
    have henv : env.enableGA = true := by
      by_cases hc : env.enableGA
      · exact hc
      · rw [if_pos (by simp [hc])] at hne
        exact absurd rfl hne
    rw [if_neg (by simp [henv])] at hne
    by_cases hg : (!(hasWord ("ga".toList) q
          || strContains q ("google analytics".toList)
          || hasWord ("analytics".toList) q)
        && !(["top countries", "top pages", "busiest",
              "total active users", "daily active users", "daily users"].any
              (fun kw => strContains q kw.toList)))
    · rw [if_pos hg] at hne
      exact absurd rfl hne
    · rw [if_neg hg] at hne
      have hcsv : env.csvExists = true := by
        by_cases hc : env.csvExists
        · exact hc
        · rw [if_pos (by simp [hc])] at hne
          exact absurd rfl hne
      rw [if_neg (by simp [hcsv])] at hne
      have hrows : env.rows ≠ [] := by
        intro hr
        rw [if_pos (by simp [hr])] at hne
        exact absurd rfl hne
      refine ⟨?_, hcsv, hrows⟩
      have hor : (hasWord ("ga".toList) q
            || strContains q ("google analytics".toList)
            || hasWord ("analytics".toList) q) = true
          ∨ (["top countries", "top pages", "busiest",
              "total active users", "daily active users", "daily users"].any
              (fun kw => strContains q kw.toList)) = true := by
        by_cases hm : (hasWord ("ga".toList) q
            || strContains q ("google analytics".toList)
            || hasWord ("analytics".toList) q)
        · exact Or.inl hm
        · by_cases ha : (["top countries", "top pages", "busiest",
              "total active users", "daily active users", "daily users"].any
              (fun kw => strContains q kw.toList))
          · exact Or.inr ha
          · simp only [Bool.not_eq_true] at hm ha
            exact absurd (by rw [hm, ha]; decide) hg
      rcases hor with hm | ha
      · rw [Bool.or_eq_true, Bool.or_eq_true] at hm
        rcases hm with (hm | hm) | hm
        · exact ⟨("ga".toList), by simp [gaTriggerKeywords], hasWord_contains _ _ hm⟩
        · exact ⟨("google analytics".toList), by simp [gaTriggerKeywords], hm⟩
        · exact ⟨("analytics".toList), by simp [gaTriggerKeywords],
            hasWord_contains _ _ hm⟩
      · obtain ⟨x, hx, hcx⟩ := List.any_eq_true.mp ha
        refine ⟨x.toList, ?_, hcx⟩
        fin_cases hx <;> simp [gaTriggerKeywords]

/-- Witness for C8 at concrete inputs: a question about top countries gets a
GA reply when the CSV is present and non-empty; the same question gets
`None` when the CSV is absent. -/
theorem ga_trigger_c8_witness :
    (∃ kw ∈ gaTriggerKeywords,
      strContains ("what are our top countries".toList) kw = true)
    ∧ maybeAnswerGA ⟨true, false, []⟩ ("what are our top countries".toList) = none := by
  constructor
  · have h := (ga_trigger_c8 ⟨true, true, [⟨none, none, none, 0, 0⟩]⟩
      ("what are our top countries".toList)).2 (by decide)
    exact h.1
  · exact (ga_trigger_c8 ⟨true, false, []⟩ ("what are our top countries".toList)).1
      (Or.inr (Or.inr (Or.inl rfl)))

theorem listStarts_length_le : ∀ pat s : Str, listStarts s pat = true → pat.length ≤ s.length := by
  intro pat
  induction pat with
  | nil => intro s _; simp
  | cons p ps ih =>
    intro s h
    cases s with
    | nil => simp [listStarts] at h
    | cons c cs =>
      simp only [listStarts, Bool.and_eq_true] at h
      have := ih cs h.2
      simp only [List.length_cons]
      omega

theorem listStarts_append_drop :
    ∀ (a : Str) (pat b : Str), listStarts (a ++ b) pat = true →
      listStarts b (pat.drop a.length) = true := by
  intro a
  induction a with
  | nil => intro pat b h; simpa using h
  | cons x a' ih =>
    intro pat b h
    cases pat with
    | nil => simp [listStarts]
    | cons p ps =>
      simp only [List.cons_append, listStarts, Bool.and_eq_true] at h
      simpa using ih ps b h.2

theorem listStarts_append_left :
    ∀ (a : Str) (pat b₁ b₂ : Str), pat.length ≤ a.length →
      listStarts (a ++ b₁) pat = listStarts (a ++ b₂) pat := by
  intro a
  induction a with
  | nil =>
    intro pat b₁ b₂ h
    have : pat = [] := List.eq_nil_of_length_eq_zero (by simpa using h)
    subst this
    simp [listStarts]
  | cons x a' ih =>
    intro pat b₁ b₂ h
    cases pat with
    | nil => simp [listStarts]
    | cons p ps =>
      simp only [List.cons_append, listStarts, List.append_eq]
      rw [ih ps b₁ b₂ (by simpa using h)]

theorem head?_dropWhile (p : Char → Bool) :
    ∀ (x : Str) (d : Char), (x.dropWhile p).head? = some d → p d = false := by
  intro x
  induction x with
  | nil => intro d h; simp at h
  | cons c cs ih =>
    intro d h
    by_cases hc : p c
    · rw [List.dropWhile_cons_of_pos hc] at h
      exact ih d h
    · rw [List.dropWhile_cons_of_neg hc] at h
      simp at h
      subst h
      simpa using hc

theorem drop_takeWhile_length (p : Char → Bool) :
    ∀ x : Str, x.drop ((x.takeWhile p).length) = x.dropWhile p := by
  intro x
  induction x with
  | nil => simp
  | cons c cs ih =>
    by_cases hc : p c
    · rw [List.takeWhile_cons_of_pos hc, List.dropWhile_cons_of_pos hc]
      simpa using ih
    · rw [List.takeWhile_cons_of_neg hc, List.dropWhile_cons_of_neg hc]
      simp

theorem stop_toLower_not_mem (c : Char) (hc : urlStop c = true) :
    c.toLower ∉ ("https://".toList) ∧ c.toLower ∉ ("http://".toList) := by
  have hcases : c = ' ' ∨ c = '\t' ∨ c = '\n' ∨ c = '\r' ∨ c = '\x0b' ∨ c = '\x0c'
      ∨ c = ')' ∨ c = '>' ∨ c = ']' := by
    simp only [urlStop, pySpace, Bool.or_eq_true, beq_iff_eq] at hc
    tauto
  rcases hcases with rfl | rfl | rfl | rfl | rfl | rfl | rfl | rfl | rfl <;> exact (by decide)

theorem matchURLLen_pos (x : Str) (n : Nat) (h : matchURLLen x = some n) : 1 ≤ n := by
  unfold matchURLLen at h
  by_cases c8 : ciStarts x ("https://".toList)
  · rw [if_pos c8] at h
    cases hh : (x.drop 8).head? with
    | none => simp only [hh] at h; exact Option.noConfusion h
    | some d =>
      simp only [hh] at h
      by_cases hs : urlStop d
      · rw [if_pos hs] at h; simp at h
      · rw [if_neg hs] at h
        simp only [Option.some.injEq] at h
        omega
  · rw [if_neg c8] at h
    by_cases c7 : ciStarts x ("http://".toList)
    · rw [if_pos c7] at h
      cases hh : (x.drop 7).head? with
      | none => simp only [hh] at h; exact Option.noConfusion h
      | some d =>
        simp only [hh] at h
        by_cases hs : urlStop d
        · rw [if_pos hs] at h; simp at h
        · rw [if_neg hs] at h
          simp only [Option.some.injEq] at h
          omega
    · rw [if_neg c7] at h; simp at h

theorem matchURLLen_some_elim (x : Str) (n : Nat) (h : matchURLLen x = some n) :
    ∃ L, ((L = 8 ∧ ciStarts x ("https://".toList) = true)
        ∨ (L = 7 ∧ ciStarts x ("https://".toList) = false
            ∧ ciStarts x ("http://".toList) = true))
      ∧ ∃ d, (x.drop L).head? = some d ∧ urlStop d = false := by
  unfold matchURLLen at h
  by_cases c8 : ciStarts x ("https://".toList)
  · rw [if_pos c8] at h
    cases hh : (x.drop 8).head? with
    | none => simp only [hh] at h; exact Option.noConfusion h
    | some d =>
      simp only [hh] at h
      by_cases hs : urlStop d
      · rw [if_pos hs] at h; simp at h
      · exact ⟨8, Or.inl ⟨rfl, c8⟩, d, hh, by simpa using hs⟩
  · rw [if_neg c8] at h
    by_cases c7 : ciStarts x ("http://".toList)
    · rw [if_pos c7] at h
      cases hh : (x.drop 7).head? with
      | none => simp only [hh] at h; exact Option.noConfusion h
      | some d =>
        simp only [hh] at h
        by_cases hs : urlStop d
        · rw [if_pos hs] at h; simp at h
        · exact ⟨7, Or.inr ⟨rfl, by simpa using c8, c7⟩, d, hh, by simpa using hs⟩
    · rw [if_neg c7] at h; simp at h

theorem matchURLLen_ne_none₈ (x : Str) (c8 : ciStarts x ("https://".toList) = true)
    (d : Char) (hd : (x.drop 8).head? = some d) (hs : urlStop d = false) :
    matchURLLen x ≠ none := by
  unfold matchURLLen
  rw [if_pos c8]
  simp only [hd, hs]
  simp

theorem matchURLLen_ne_none₇ (x : Str) (c8 : ciStarts x ("https://".toList) = false)
    (c7 : ciStarts x ("http://".toList) = true)
    (d : Char) (hd : (x.drop 7).head? = some d) (hs : urlStop d = false) :
    matchURLLen x ≠ none := by
  unfold matchURLLen
  rw [if_neg (by rw [c8]; simp), if_pos c7]
  simp only [hd, hs]
  simp

theorem matchURLLen_some_drop (s : Str) (n : Nat) (h : matchURLLen s = some n) :
    (s.drop n).head? = none ∨ ∃ d, (s.drop n).head? = some d ∧ urlStop d = true := by
  unfold matchURLLen at h
  by_cases c8 : ciStarts s ("https://".toList)
  · rw [if_pos c8] at h
    cases hh : (s.drop 8).head? with
    | none => simp only [hh] at h; exact Option.noConfusion h
    | some d =>
      simp only [hh] at h
      by_cases hs : urlStop d
      · rw [if_pos hs] at h; simp at h
      · rw [if_neg hs] at h
        simp only [Option.some.injEq] at h
        subst h
        rw [← List.drop_drop, drop_takeWhile_length]
        cases hd : ((s.drop 8).dropWhile (fun c => !urlStop c)).head? with
        | none => exact Or.inl rfl
        | some d' =>
          refine Or.inr ⟨d', rfl, ?_⟩
          have := head?_dropWhile _ _ _ hd
          simpa using this
  · rw [if_neg c8] at h
    by_cases c7 : ciStarts s ("http://".toList)
    · rw [if_pos c7] at h
      cases hh : (s.drop 7).head? with
      | none => simp only [hh] at h; exact Option.noConfusion h
      | some d =>
        simp only [hh] at h
        by_cases hs : urlStop d
        · rw [if_pos hs] at h; simp at h
        · rw [if_neg hs] at h
          simp only [Option.some.injEq] at h
          subst h
          rw [← List.drop_drop, drop_takeWhile_length]
          cases hd : ((s.drop 7).dropWhile (fun c => !urlStop c)).head? with
          | none => exact Or.inl rfl
          | some d' =>
            refine Or.inr ⟨d', rfl, ?_⟩
            have := head?_dropWhile _ _ _ hd
            simpa using this
    · rw [if_neg c7] at h; simp at h

theorem ciStarts_append_eq (pre b₁ b₂ pat : Str) (h : pat.length ≤ pre.length) :
    ciStarts (pre ++ b₁) pat = ciStarts (pre ++ b₂) pat := by
  unfold ciStarts
  rw [show pyLower (pre ++ b₁) = pyLower pre ++ pyLower b₁ from List.map_append _ _ _,
      show pyLower (pre ++ b₂) = pyLower pre ++ pyLower b₂ from List.map_append _ _ _]
  exact listStarts_append_left (pyLower pre) pat _ _
    (by simpa [pyLower] using h)

theorem ciStarts_append_short_stop (pre t P : Str)
    (hP : P = ("https://".toList) ∨ P = ("http://".toList))
    (hlen : pre.length < P.length)
    (ht : t.head? = none ∨ ∃ d, t.head? = some d ∧ urlStop d = true) :
    ciStarts (pre ++ t) P = false := by
  cases hb : ciStarts (pre ++ t) P with
  | false => rfl
  | true =>
    exfalso
    unfold ciStarts at hb
    rw [show pyLower (pre ++ t) = pyLower pre ++ pyLower t from List.map_append _ _ _] at hb
    have h2 := listStarts_append_drop (pyLower pre) P (pyLower t) hb
    rw [show (pyLower pre).length = pre.length from by simp [pyLower]] at h2
    have hδ : 0 < (P.drop pre.length).length := by rw [List.length_drop]; omega
    cases hPd : P.drop pre.length with
    | nil => rw [hPd] at hδ; simp at hδ
    | cons p ps =>
      rw [hPd] at h2
      cases t with
      | nil => simp [pyLower, listStarts] at h2
      | cons c₁ t₁ =>
        have hstop : urlStop c₁ = true := by
          rcases ht with hn | ⟨d, hd, hs⟩
          · simp at hn
          · simp only [List.head?_cons, Option.some.injEq] at hd
            rwa [← hd] at hs
        have hpc : p = c₁.toLower := by
          simp only [pyLower, List.map_cons, listStarts, Bool.and_eq_true, beq_iff_eq] at h2
          exact h2.1
        have hmem : p ∈ P := by
          have hmem0 : p ∈ P.drop pre.length := by
            rw [hPd]; exact List.mem_cons_self _ _
          exact List.drop_subset _ _ hmem0
        have hnm := stop_toLower_not_mem c₁ hstop
        rcases hP with rfl | rfl
        · exact hnm.1 (hpc ▸ hmem)
        · exact hnm.2 (hpc ▸ hmem)

theorem matchURLLen_append_stop (pre s t : Str)
    (hnone : matchURLLen (pre ++ s) = none)
    (ht : t.head? = none ∨ ∃ d, t.head? = some d ∧ urlStop d = true) :
    matchURLLen (pre ++ t) = none := by
  cases hmt : matchURLLen (pre ++ t) with
  | none => rfl
  | some m =>
    exfalso
    obtain ⟨L, hL, d', hd', hs'⟩ := matchURLLen_some_elim _ _ hmt
    have hP : ∃ P : Str, (P = ("https://".toList) ∨ P = ("http://".toList))
        ∧ P.length = L ∧ ciStarts (pre ++ t) P = true := by
      rcases hL with ⟨rfl, h⟩ | ⟨rfl, _, h7⟩
      · exact ⟨_, Or.inl rfl, by decide, h⟩
      · exact ⟨_, Or.inr rfl, by decide, h7⟩
    obtain ⟨P, hPor, hPlen, hci⟩ := hP
    rcases Nat.lt_trichotomy pre.length L with hcmp | hcmp | hcmp
    · have hfalse := ciStarts_append_short_stop pre t P hPor (by omega) ht
      rw [hfalse] at hci
      exact Bool.noConfusion hci
    · have hdt : (pre ++ t).drop L = t := by
        rw [← hcmp]; exact List.drop_left pre t
      rw [hdt] at hd'
      rcases ht with hn | ⟨d, hd, hs⟩
      · rw [hn] at hd'; exact Option.noConfusion hd'
      · rw [hd] at hd'
        have hdd : d = d' := by injection hd'
        rw [hdd] at hs
        rw [hs] at hs'
        exact Bool.noConfusion hs'
    · have hLle : L ≤ pre.length := by omega
      have e2 : (pre ++ t).drop L = pre.drop L ++ t := List.drop_append_of_le_length hLle
      have e3 : (pre ++ s).drop L = pre.drop L ++ s := List.drop_append_of_le_length hLle
      have hpd : 0 < (pre.drop L).length := by rw [List.length_drop]; omega
      cases hpdd : pre.drop L with
      | nil => rw [hpdd] at hpd; simp at hpd
      | cons y ys =>
        have hy : d' = y := by
          rw [e2, hpdd] at hd'
          simpa using hd'.symm
        subst hy
        have hd's : ((pre ++ s).drop L).head? = some d' := by
          rw [e3, hpdd]; rfl
        rcases hL with ⟨hLeq, hc8⟩ | ⟨hLeq, hc8, hc7⟩
        · subst hLeq
          have hc8s : ciStarts (pre ++ s) ("https://".toList) = true := by
            rw [ciStarts_append_eq pre s t _ (by simp; omega)]
            exact hc8
          exact matchURLLen_ne_none₈ (pre ++ s) hc8s d' hd's hs' hnone
        · subst hLeq
          have hc8s : ciStarts (pre ++ s) ("https://".toList) = false := by
            rw [ciStarts_append_eq pre s t _ (by simp; omega)]
            exact hc8
          have hc7s : ciStarts (pre ++ s) ("http://".toList) = true := by
            rw [ciStarts_append_eq pre s t _ (by simp; omega)]
            exact hc7
          exact matchURLLen_ne_none₇ (pre ++ s) hc8s hc7s d' hd's hs' hnone

theorem subURLsF_no_match :
    ∀ fuel (s pre : Str), s.length ≤ fuel →
      matchURLLen (pre ++ s) = none →
      matchURLLen (pre ++ subURLsF fuel s) = none := by
  intro fuel
  induction fuel with
  | zero =>
    intro s pre hle h
    have hs : s = [] := List.eq_nil_of_length_eq_zero (by omega)
    subst hs
    simpa [subURLsF] using h
  | succ fuel ih =>
    intro s pre hle h
    cases s with
    | nil => simpa [subURLsF] using h
    | cons c rest =>
      cases hm : matchURLLen (c :: rest) with
      | some n =>
        have hpos := matchURLLen_pos _ _ hm
        have hstep : subURLsF (fuel + 1) (c :: rest) = subURLsF fuel ((c :: rest).drop n) := by
          simp [subURLsF, hm]
        rw [hstep]
        have hlen : ((c :: rest).drop n).length ≤ fuel := by
          rw [List.length_drop]
          simp only [List.length_cons] at hle ⊢
          omega
        have hstop := matchURLLen_some_drop _ _ hm
        have h2 : matchURLLen (pre ++ (c :: rest).drop n) = none :=
          matchURLLen_append_stop pre (c :: rest) ((c :: rest).drop n) h hstop
        exact ih _ pre hlen h2
      | none =>
        have hstep : subURLsF (fuel + 1) (c :: rest) = c :: subURLsF fuel rest := by
          simp [subURLsF, hm]
        rw [hstep]
        have hassoc : pre ++ c :: subURLsF fuel rest = (pre ++ [c]) ++ subURLsF fuel rest := by
          simp
        rw [hassoc]
        apply ih rest (pre ++ [c]) (by simp only [List.length_cons] at hle; omega)
        have heq : (pre ++ [c]) ++ rest = pre ++ c :: rest := by simp
        rw [heq]
        exact h

theorem hasLiveURL_subURLsF :
    ∀ fuel (s : Str), s.length ≤ fuel → hasLiveURL (subURLsF fuel s) = false := by
  intro fuel
  induction fuel with
  | zero =>
    intro s _
    simp [subURLsF, hasLiveURL]
  | succ fuel ih =>
    intro s hle
    cases s with
    | nil => simp [subURLsF, hasLiveURL]
    | cons c rest =>
      cases hm : matchURLLen (c :: rest) with
      | some n =>
        have hpos := matchURLLen_pos _ _ hm
        have hstep : subURLsF (fuel + 1) (c :: rest) = subURLsF fuel ((c :: rest).drop n) := by
          simp [subURLsF, hm]
        rw [hstep]
        apply ih
        rw [List.length_drop]
        simp only [List.length_cons] at hle ⊢
        omega
      | none =>
        have hstep : subURLsF (fuel + 1) (c :: rest) = c :: subURLsF fuel rest := by
          simp [subURLsF, hm]
        rw [hstep]
        have hrest : rest.length ≤ fuel := by
          simp only [List.length_cons] at hle; omega
        have hq : matchURLLen ([c] ++ subURLsF fuel rest) = none := by
          apply subURLsF_no_match fuel rest [c] hrest
          simpa using hm
        simp only [hasLiveURL, Bool.or_eq_false_iff]
        constructor
        · simp only [List.singleton_append] at hq
          rw [hq]
          rfl
        · exact ih rest hrest

/-- C5 (amended): after `_sanitize_answer_format` has replaced each markdown
link `[title](url)` by its stripped title and deleted every raw-URL match of
`_URL_RE`, the intermediate text contains no match of `_URL_RE` at all — no
`https?://` followed by a non-delimiter character.  (A bare scheme such as
`"http://"` with nothing after it is not matched by `_URL_RE` and survives
to the returned text, so the claim's stronger "contains no substring
matching `https?://`" is false — see the counterexample.) -/
theorem sanitize_links_c5_amended (text : Str) :
    hasLiveURL (subURLs (subMDLinks text)) = false :=
  hasLiveURL_subURLsF _ _ (le_refl _)

/-- Counterexample to C5 as stated: on the input `"http://"` the sanitizer
returns `"http://"` itself, which contains the substring `"http://"`. -/
theorem sanitize_links_c5_counterexample :
    (sanitizeAnswerFormat ("http://".toList) 5).1 = "http://".toList
    ∧ strContains (sanitizeAnswerFormat ("http://".toList) 5).1 ("http://".toList) = true := by
  decide

theorem foldl_emit_flush (maxB : Nat) (o b : List Str) :
    List.foldl (emitItem maxB) o (if List.isEmpty b then [] else [SanItem.bullets b])
      = flushB maxB o b := by
  by_cases hb : b.isEmpty
  · have hnil : b = [] := by simpa using hb
    simp [hb, hnil, flushB]
  · have hne : ¬ b = [] := by simpa using hb
    simp [hb, flushB, hne, emitItem]

theorem procLines_eq_renderAux (maxB : Nat) :
    ∀ (lines : List Str) (out buf : List Str),
      procLines maxB out buf lines = (parseAux buf lines).foldl (emitItem maxB) out := by
  intro lines
  induction lines with
  | nil =>
    intro out buf
    simp only [procLines, parseAux]
    rw [foldl_emit_flush]
  | cons ln rest ih =>
    intro out buf
    cases h1 : isHeading ln with
    | true =>
      simp only [procLines, parseAux, h1, if_true]
      rw [ih, List.foldl_append, foldl_emit_flush, List.foldl_cons]
      congr 1
    | false =>
      cases h2 : bulletMatch ln with
      | true =>
        simp only [procLines, parseAux, h1, h2, Bool.false_eq_true, if_false, if_true]
        exact ih out (buf ++ [bulletSub (pyStrip ln)])
      | false =>
        cases h3 : (pyStrip ln).isEmpty with
        | false =>
          simp only [procLines, parseAux, h1, h2, h3, Bool.false_eq_true, if_false,
            Bool.not_false, if_true]
          rw [ih, List.foldl_append, foldl_emit_flush, List.foldl_cons]
          congr 1
        | true =>
          simp only [procLines, parseAux, h1, h2, h3, Bool.false_eq_true, if_false,
            Bool.not_true, if_true]
          exact ih out buf

theorem runsOKAux_append_blank (maxB : Nat) :
    ∀ (xs ys : List Str) (c : Nat) (e : Bool),
      runsOKAux maxB c e (xs ++ [] :: ys)
        = (runsOKAux maxB c e xs && runsOKAux maxB 0 false ys) := by
  intro xs
  induction xs with
  | nil =>
    intro ys c e
    simp [runsOKAux, isBulletish, listStarts]
  | cons x xs ih =>
    intro ys c e
    by_cases hx : isBulletish x
    · simp only [List.cons_append, runsOKAux, hx, if_true]
      exact ih ys (c + 1) (x == bulletEll)
    · simp only [List.cons_append, runsOKAux, hx, Bool.false_eq_true, if_false,
        List.append_eq]
      rw [ih ys 0 false, Bool.and_assoc]

theorem runsOKAux_bullets (maxB : Nat) :
    ∀ (bs : List Str) (ys : List Str) (c : Nat) (e : Bool),
      (∀ l ∈ bs, isBulletish l = true) →
      runsOKAux maxB c e (bs ++ [] :: ys)
        = (runEnd maxB (c + bs.length) (lastEllOf bs e) && runsOKAux maxB 0 false ys) := by
  intro bs
  induction bs with
  | nil =>
    intro ys c _ _
    simp [runsOKAux, isBulletish, listStarts, lastEllOf]
  | cons b bs ih =>
    intro ys c e hall
    have hb : isBulletish b = true := hall b (List.mem_cons_self _ _)
    simp only [List.cons_append, runsOKAux, hb, if_true, List.append_eq]
    rw [ih ys (c + 1) (b == bulletEll) (fun l hl => hall l (List.mem_cons_of_mem _ hl))]
    have harith : c + 1 + bs.length = c + (bs.length + 1) := by omega
    rw [harith]
    rfl

theorem runsOK_dropLast_of_blank (maxB : Nat) (out : List Str) (hne : out ≠ [])
    (hl : out.getLast? = some []) (hout : runsOK maxB out = true) :
    runsOK maxB out.dropLast = true ∧ out = out.dropLast ++ [[]] := by
  have hlast : out.getLast hne = [] := by
    have := List.getLast?_eq_getLast out hne
    rw [hl] at this
    exact (Option.some.injEq _ _ ▸ this.symm)
  have hdecomp : out = out.dropLast ++ [[]] := by
    conv_lhs => rw [← List.dropLast_append_getLast hne]
    rw [hlast]
  refine ⟨?_, hdecomp⟩
  rw [hdecomp] at hout
  unfold runsOK at hout ⊢
  rw [show out.dropLast ++ [[]] = out.dropLast ++ [] :: [] from rfl] at hout
  rw [runsOKAux_append_blank] at hout
  exact (Bool.and_eq_true _ _).mp hout |>.1

theorem runsOK_withSep_append (maxB : Nat) (out seg : List Str)
    (hout : runsOK maxB out = true) (hseg : runsOK maxB seg = true) :
    runsOK maxB (withSep out ++ seg) = true := by
  unfold withSep
  by_cases h0 : out = []
  · simp [h0, hseg]
  · by_cases hl : out.getLast? = some []
    · rw [if_neg h0, if_pos hl]
      obtain ⟨hdl, hdecomp⟩ := runsOK_dropLast_of_blank maxB out h0 hl hout
      conv_lhs => rw [hdecomp]
      rw [show (out.dropLast ++ [[]]) ++ seg = out.dropLast ++ [] :: seg by simp]
      unfold runsOK
      rw [runsOKAux_append_blank]
      unfold runsOK at hdl hseg
      rw [hdl, hseg]
      rfl
    · rw [if_neg h0, if_neg hl]
      rw [show (out ++ [[]]) ++ seg = out ++ [] :: seg by simp]
      unfold runsOK
      rw [runsOKAux_append_blank]
      unfold runsOK at hout hseg
      rw [hout, hseg]
      rfl

theorem lastEllOf_append_ell : ∀ (xs : List Str) (e : Bool),
    lastEllOf (xs ++ [bulletEll]) e = true := by
  intro xs
  induction xs with
  | nil => intro e; simp [lastEllOf]
  | cons x xs ih => intro e; simpa [lastEllOf] using ih (x == bulletEll)

theorem dropWhile_idem (p : Char → Bool) (x : Str) :
    (x.dropWhile p).dropWhile p = x.dropWhile p := by
  cases h : x.dropWhile p with
  | nil => rfl
  | cons y ys =>
    have hy : p y = false := head?_dropWhile p x y (by rw [h]; rfl)
    rw [List.dropWhile_cons_of_neg (by simp [hy])]

theorem rstripLine_idem (l : Str) : rstripLine (rstripLine l) = rstripLine l := by
  unfold rstripLine
  rw [List.reverse_reverse, dropWhile_idem]

theorem bulletSub_bulletish (ln : Str) (hm : bulletMatch ln = true)
    (hr : rstripLine ln = ln) : isBulletish (bulletSub (pyStrip ln)) = true := by
  have hrev : ln.reverse.dropWhile pySpace = ln.reverse := by
    have h := congrArg List.reverse hr
    rw [rstripLine, List.reverse_reverse] at h
    exact h
  unfold bulletMatch at hm
  cases hd : ln.dropWhile pySpace with
  | nil => rw [hd] at hm; exact Bool.noConfusion hm
  | cons c1 tl =>
    cases tl with
    | nil => rw [hd] at hm; exact Bool.noConfusion hm
    | cons c2 r =>
      rw [hd] at hm
      simp only [Bool.and_eq_true, beq_iff_eq] at hm
      obtain ⟨rfl, hc2⟩ := hm
      -- the rstripped line has a non-space last character, so stripping the
      -- dropWhile suffix on the right is the identity
      obtain ⟨pre, hpre⟩ := (List.dropWhile_suffix pySpace (l := ln))
      rw [hd] at hpre
      have hln : ln.reverse = ('-' :: c2 :: r).reverse ++ pre.reverse := by
        rw [← List.reverse_append, hpre]
      have hrevstrip : ('-' :: c2 :: r).reverse.dropWhile pySpace
          = ('-' :: c2 :: r).reverse := by
        cases hdr : ('-' :: c2 :: r).reverse with
        | nil =>
          have := congrArg List.length hdr
          simp at this
        | cons y ys =>
          by_cases hy : pySpace y
          · exfalso
            rw [hln, hdr] at hrev
            rw [List.cons_append, List.dropWhile_cons_of_pos hy] at hrev
            have hlen := congrArg List.length hrev
            have hle := dropWhile_length_le pySpace (ys ++ pre.reverse)
            simp only [List.length_cons] at hlen
            omega
          · rw [List.dropWhile_cons_of_neg (by simp [hy])]
      have hstrip : pyStrip ln = '-' :: c2 :: r := by
        unfold pyStrip
        rw [hd, hrevstrip, List.reverse_reverse]
      have hdash : ¬ pySpace '-' = true := by decide
      have hsub : bulletSub ('-' :: c2 :: r) = '•' :: ' ' :: List.dropWhile pySpace (c2 :: r) := by
        unfold bulletSub
        rw [List.dropWhile_cons_of_neg hdash]
        simp [hc2]
      rw [hstrip, hsub]
      simp [isBulletish, listStarts]

theorem parseAux_bullets_bulletish :
    ∀ (lines : List Str) (buf : List Str),
      (∀ l ∈ lines, rstripLine l = l) →
      (∀ l ∈ buf, isBulletish l = true) →
      ∀ bs, SanItem.bullets bs ∈ parseAux buf lines → ∀ l ∈ bs, isBulletish l = true := by
  intro lines
  induction lines with
  | nil =>
    intro buf _ hbuf bs hmem
    unfold parseAux at hmem
    by_cases hb : buf.isEmpty
    · rw [if_pos hb] at hmem; simp at hmem
    · rw [if_neg hb] at hmem
      simp only [List.mem_singleton, SanItem.bullets.injEq] at hmem
      subst hmem
      exact hbuf
  | cons ln rest ih =>
    intro buf hlines hbuf bs hmem
    have hlnr : rstripLine ln = ln := hlines ln (List.mem_cons_self _ _)
    have hrest : ∀ l ∈ rest, rstripLine l = l :=
      fun l hl => hlines l (List.mem_cons_of_mem _ hl)
    unfold parseAux at hmem
    by_cases h1 : isHeading ln
    · rw [if_pos h1] at hmem
      rw [List.mem_append] at hmem
      rcases hmem with hmem | hmem
      · by_cases hb : buf.isEmpty
        · rw [if_pos hb] at hmem; simp at hmem
        · rw [if_neg hb] at hmem
          simp only [List.mem_singleton, SanItem.bullets.injEq] at hmem
          subst hmem
          exact hbuf
      · rcases List.mem_cons.mp hmem with hmem | hmem
        · exact absurd hmem (by simp)
        · exact ih [] hrest (by simp) bs hmem
    · rw [if_neg h1] at hmem
      by_cases h2 : bulletMatch ln
      · rw [if_pos h2] at hmem
        refine ih (buf ++ [bulletSub (pyStrip ln)]) hrest ?_ bs hmem
        intro l hl
        rcases List.mem_append.mp hl with hl | hl
        · exact hbuf l hl
        · rw [List.mem_singleton] at hl
          subst hl
          exact bulletSub_bulletish ln h2 hlnr
      · rw [if_neg h2] at hmem
        by_cases h3 : (pyStrip ln).isEmpty
        · rw [if_neg (by simp [h3])] at hmem
          exact ih buf hrest hbuf bs hmem
        · rw [if_pos (by simp [h3])] at hmem
          rw [List.mem_append] at hmem
          rcases hmem with hmem | hmem
          · by_cases hb : buf.isEmpty
            · rw [if_pos hb] at hmem; simp at hmem
            · rw [if_neg hb] at hmem
              simp only [List.mem_singleton, SanItem.bullets.injEq] at hmem
              subst hmem
              exact hbuf
          · rcases List.mem_cons.mp hmem with hmem | hmem
            · exact absurd hmem (by simp)
            · exact ih [] hrest (by simp) bs hmem

theorem renderItems_runsOK (maxB : Nat) (hmb : 1 ≤ maxB) :
    ∀ (items : List SanItem) (out : List Str),
      runsOK maxB out = true →
      (∀ bs, SanItem.bullets bs ∈ items → ∀ l ∈ bs, isBulletish l = true) →
      runsOK maxB (items.foldl (emitItem maxB) out) = true := by
  intro items
  induction items with
  | nil => intro out h _; simpa using h
  | cons it items ih =>
    intro out hout hbull
    rw [List.foldl_cons]
    refine ih (emitItem maxB out it) ?_
      (fun bs hmem l hl => hbull bs (List.mem_cons_of_mem _ hmem) l hl)
    cases it with
    | heading h =>
      apply runsOK_withSep_append _ _ _ hout
      have hnb : isBulletish ("**".toList ++ h ++ "**".toList) = false := rfl
      simp [runsOK, runsOKAux, hnb, runEnd, isBulletish, listStarts]
    | textLine t =>
      apply runsOK_withSep_append _ _ _ hout
      by_cases hb : isBulletish t
      · simp [runsOK, runsOKAux, hb, runEnd]
        omega
      · simp [runsOK, runsOKAux, hb, runEnd]
    | bullets bs =>
      have hemit : emitItem maxB out (SanItem.bullets bs)
          = withSep out ++ (clipBullets maxB bs ++ [[]]) := by
        simp [emitItem]
      rw [hemit]
      apply runsOK_withSep_append _ _ _ hout
      have hbs : ∀ l ∈ bs, isBulletish l = true :=
        hbull bs (List.mem_cons_self _ _)
      have hclip : ∀ l ∈ clipBullets maxB bs, isBulletish l = true := by
        intro l hl
        unfold clipBullets at hl
        by_cases hlen : maxB < bs.length
        · rw [if_pos hlen] at hl
          rcases List.mem_append.mp hl with hl | hl
          · exact hbs l (List.take_subset _ _ hl)
          · rw [List.mem_singleton] at hl
            subst hl
            rfl
        · rw [if_neg hlen] at hl
          exact hbs l hl
      unfold runsOK
      rw [show clipBullets maxB bs ++ [[]] = clipBullets maxB bs ++ [] :: [] from rfl]
      rw [runsOKAux_bullets maxB _ _ _ _ hclip]
      have hend : runEnd maxB (0 + (clipBullets maxB bs).length)
          (lastEllOf (clipBullets maxB bs) false) = true := by
        unfold clipBullets
        by_cases hlen : maxB < bs.length
        · rw [if_pos hlen]
          have hlen2 : (bs.take maxB ++ [bulletEll]).length = maxB + 1 := by
            rw [List.length_append, List.length_take]
            simp
            omega
          rw [hlen2, lastEllOf_append_ell]
          simp [runEnd]
        · rw [if_neg hlen]
          simp only [runEnd, Bool.or_eq_true, decide_eq_true_eq]
          left
          omega
      rw [hend]
      simp [runsOKAux, runEnd]

/-- C6: for `max_bullets >= 1`, the line stage of `_sanitize_answer_format`
is exactly the rendering of the parsed items — each markdown `"- "` bullet
is rewritten to a `"• "` bullet, each buffered bullet run is clipped to
`max_bullets` bullets with the single extra line `"• …"` appended precisely
when the run had more than `max_bullets` bullets, and `###`/`## ` headings
become bold `**…**` lines (see `emitItem`/`clipBullets`); consequently every
maximal run of consecutive bullet lines in the produced lines has at most
`max_bullets` lines, or exactly `max_bullets + 1` lines ending in `"• …"`
(`runsOK`).  The returned text is the join/collapse/strip of those lines. -/
theorem sanitize_bullets_c6 (text : Str) (maxB : Nat) (hmb : 1 ≤ maxB) :
    (sanitizeAnswerFormat text maxB).1
      = pyStrip (collapseNl (joinNl (procLines maxB [] [] (saniLines text))))
    ∧ procLines maxB [] [] (saniLines text)
      = renderItems maxB (parseItems (saniLines text))
    ∧ runsOK maxB (procLines maxB [] [] (saniLines text)) = true := by
  refine ⟨?_, ?_, ?_⟩
  · by_cases h : text.isEmpty
    · have htext : text = [] := by simpa using h
      subst htext
      rfl
    · simp [sanitizeAnswerFormat, h]
  · exact procLines_eq_renderAux maxB (saniLines text) [] []
  · rw [procLines_eq_renderAux maxB (saniLines text) [] []]
    apply renderItems_runsOK maxB hmb
    · simp [runsOK, runsOKAux, runEnd]
    · apply parseAux_bullets_bulletish (saniLines text) []
      · intro l hl
        unfold saniLines at hl
        obtain ⟨x, _, rfl⟩ := List.mem_map.mp hl
        exact rstripLine_idem x
      · intro l hl
        simp at hl

/-- Witness for C6 at a concrete input: three bullets with `max_bullets = 2`
are clipped to two plus the `"• …"` marker. -/
theorem sanitize_bullets_c6_witness :
    runsOK 2 (procLines 2 [] [] (saniLines ("- a\n- b\n- c".toList))) = true
    ∧ (sanitizeAnswerFormat ("- a\n- b\n- c".toList) 2).1 = "• a\n• b\n• …".toList := by
  constructor
  · exact (sanitize_bullets_c6 ("- a\n- b\n- c".toList) 2 (by omega)).2.2
  · have h := (sanitize_bullets_c6 ("- a\n- b\n- c".toList) 2 (by omega)).1
    rw [h]
    decide

/-- C1: on a non-empty question that does not take the web path, `/ask`
runs `contAsk`, which tries the structured fallbacks in the fixed order
Asana, then GA, then hashtags, returning the first that fires; the RAG path
(embedding the question and searching the vector store) is reached exactly
when no fallback fires. -/
theorem ask_router_c1 (env : AskEnv) (req : AskReq) (q qLower : Str)
    (hq : q = pyStrip ((req.question).getD []))
    (hql : qLower = pyLower q)
    (hne : q ≠ [])
    (hweb : webTaken env req qLower = false) :
    ask env req = contAsk env q qLower
    ∧ (asanaHit env qLower = true →
        contAsk env q qLower = .asanaAnswer (sanitizeAnswerFormat (env.asanaAnswer q) 5).1)
    ∧ (asanaHit env qLower = false →
        ∀ r, maybeAnswerGA ⟨env.enableGA, env.gaCsvExists, env.gaRows⟩ qLower = some r →
          contAsk env q qLower = .gaAnswer r)
    ∧ (asanaHit env qLower = false →
        maybeAnswerGA ⟨env.enableGA, env.gaCsvExists, env.gaRows⟩ qLower = none →
        hashHit qLower = true →
          contAsk env q qLower = .hashtagsAnswer (hashReplyOf qLower q))
    ∧ ((asanaHit env qLower = false
        ∧ maybeAnswerGA ⟨env.enableGA, env.gaCsvExists, env.gaRows⟩ qLower = none
        ∧ hashHit qLower = false)
        ↔ isRagResult (contAsk env q qLower) = true) := by
  subst hq hql
  have hqe : (pyStrip ((req.question).getD [])).isEmpty = false := by
    cases h : (pyStrip ((req.question).getD [])).isEmpty
    · rfl
    · exact absurd (by simpa using h) hne
  refine ⟨?_, ?_, ?_, ?_, ?_⟩
  · unfold ask
    rw [if_neg (by simp [hqe]), if_neg (by simp [hweb])]
  · intro h
    unfold contAsk
    rw [if_pos h]
  · intro h r hr
    unfold contAsk
    rw [if_neg (by simp [h]), hr]
  · intro h1 h2 h3
    unfold contAsk
    rw [if_neg (by simp [h1]), h2]
    simp only [if_pos h3]
  · constructor
    · rintro ⟨h1, h2, h3⟩
      unfold contAsk
      rw [if_neg (by simp [h1]), h2]
      simp only [h3, Bool.false_eq_true, if_false]
      split_ifs <;> rfl
    · intro hrag
      by_cases h1 : asanaHit env (pyLower (pyStrip ((req.question).getD [])))
      · unfold contAsk at hrag
        rw [if_pos h1] at hrag
        exact absurd hrag (by simp [isRagResult])
      · cases hga : maybeAnswerGA
            ⟨env.enableGA, env.gaCsvExists, env.gaRows⟩
            (pyLower (pyStrip ((req.question).getD []))) with
        | some r =>
          unfold contAsk at hrag
          rw [if_neg h1, hga] at hrag
          exact absurd hrag (by simp [isRagResult])
        | none =>
          by_cases h3 : hashHit (pyLower (pyStrip ((req.question).getD [])))
          · unfold contAsk at hrag
            rw [if_neg h1, hga] at hrag
            simp only [if_pos h3] at hrag
            exact absurd hrag (by simp [isRagResult])
          · exact ⟨by simpa using h1, rfl, by simpa using h3⟩

/-- C7: on the RAG path with the search call succeeding, `/ask` requests the
vector search with `top_k = TOP_K` and passes the grounded chat a context
that is exactly the non-empty payload texts of the returned hits joined by
`"\n\n---\n\n"` and truncated to `MAX_CONTEXT_CHARS` characters; any
assembled context is at most `MAX_CONTEXT_CHARS` characters long. -/
theorem ask_rag_context_c7 (env : AskEnv) (req : AskReq) (q qLower : Str)
    (hq : q = pyStrip ((req.question).getD []))
    (hql : qLower = pyLower q)
    (hne : q ≠ [])
    (hweb : webTaken env req qLower = false)
    (hasana : asanaHit env qLower = false)
    (hga : maybeAnswerGA ⟨env.enableGA, env.gaCsvExists, env.gaRows⟩ qLower = none)
    (hhash : hashHit qLower = false)
    (hembed : env.embedFails = false) :
    (env.searchFails = false →
      ragContext? (ask env req)
        = some (env.topK, contextOf (env.search env.topK) env.maxContextChars))
    ∧ (∀ (hits : List Hit) (n : Nat), (contextOf hits n).length ≤ n) := by
  subst hq hql
  have hqe : (pyStrip ((req.question).getD [])).isEmpty = false := by
    cases h : (pyStrip ((req.question).getD [])).isEmpty
    · rfl
    · exact absurd (by simpa using h) hne
  constructor
  · intro hsearch
    have hstep : ask env req = contAsk env (pyStrip ((req.question).getD []))
        (pyLower (pyStrip ((req.question).getD []))) := by
      unfold ask
      rw [if_neg (by simp [hqe]), if_neg (by simp [hweb])]
    rw [hstep]
    unfold contAsk
    rw [if_neg (by simp [hasana]), hga]
    simp only [hhash, Bool.false_eq_true, if_false, hembed, hsearch]
    split_ifs <;> rfl
  · intro hits n
    unfold contextOf
    exact List.length_take_le _ _

/-- C9: a missing, empty, or whitespace-only question makes `/ask` return
the 400 `"Missing question"` error immediately: the result is the
`badRequest` exit, which precedes every fallback, embedding, search, and
chat call. -/
theorem ask_missing_question_c9 (env : AskEnv) (req : AskReq)
    (h : pyStrip ((req.question).getD []) = []) :
    ask env req = .badRequest
    ∧ askStatus (ask env req) = 400
    ∧ askError (ask env req) = some ("Missing question".toList)
    ∧ isRagResult (ask env req) = false := by
  have h1 : ask env req = .badRequest := by
    unfold ask
    rw [if_pos (by simp [h])]
  exact ⟨h1, by rw [h1]; rfl, by rw [h1]; rfl, by rw [h1]; rfl⟩

/-- Witness for C1: a question containing `"task"` takes the Asana branch. -/
theorem ask_router_c1_witness :
    ask askEnvW ⟨some ("list asana tasks".toList), none⟩
      = .asanaAnswer (sanitizeAnswerFormat ("ok".toList) 5).1 := by
  have h := ask_router_c1 askEnvW ⟨some ("list asana tasks".toList), none⟩
    (pyStrip ("list asana tasks".toList)) (pyLower (pyStrip ("list asana tasks".toList)))
    rfl rfl (by decide) (by decide)
  rw [h.1, h.2.1 (by decide)]
  rfl

/-- Witness for C7: with no fallback firing, the search runs with
`top_k = 24` and the single hit's text is the context. -/
theorem ask_rag_context_c7_witness :
    ragContext? (ask askEnvW ⟨some ("hello".toList), none⟩)
      = some (24, contextOf (askEnvW.search 24) 24000)
    ∧ (contextOf (askEnvW.search 24) 24000).length ≤ 24000 := by
  have h := ask_rag_context_c7 askEnvW ⟨some ("hello".toList), none⟩
    (pyStrip ("hello".toList)) (pyLower (pyStrip ("hello".toList)))
    rfl rfl (by decide) (by decide) (by decide) (by decide) (by decide) rfl
  exact ⟨h.1 rfl, h.2 (askEnvW.search 24) 24000⟩

/-- Witness for C9: a whitespace-only question yields the 400 error. -/
theorem ask_missing_question_c9_witness :
    ask askEnvW ⟨some ("   ".toList), none⟩ = .badRequest
    ∧ askStatus (ask askEnvW ⟨some ("   ".toList), none⟩) = 400 := by
  have h := ask_missing_question_c9 askEnvW ⟨some ("   ".toList), none⟩ (by decide)
  exact ⟨h.1, h.2.1⟩
